import Mathlib

set_option maxRecDepth 400000
set_option exponentiation.threshold 5000

namespace CSVPipe

/-!
Verification of the CSV pipeline in `src/main.py`: value classification
(`is_numeric`), row filtering (`WhereProcessor`), sorting (`OrderByProcessor`),
aggregation (`AggregateProcessor`), console rendering (`ConsoleViewer`) and the
application pipeline (`CSVApplication.run` / `main`).

Modelling conventions:
- Python `float` values are IEEE-754 binary64: a parsed decimal literal is
  rounded to the nearest double (ties to even, overflow to the infinities,
  underflow to signed zero), represented in canonical sign-magnitude form
  `Dbl`; the special words give `PyFloat.inf` / `PyFloat.ninf` /
  `PyFloat.nan`. Comparisons are the exact comparisons of the represented
  binary values, `str` of a float is the shortest decimal that parses back to
  the same double (positional or scientific by the decimal exponent, as
  CPython prints), fixed-point formatting rounds the exact binary value, and
  `statistics.mean` is the exact rational mean rounded to the nearest double.
- A row (Python `Dict[str, str]` from `csv.DictReader`) is an ordered
  association list; a dataset is a list of rows.
- Side effects are made explicit: functions that print warnings return them in
  a list, the viewer returns a description of what it would draw, and process
  exit behaviour is an `AppOutcome` value.
-/

deriving instance DecidableEq for Except

/-- ASCII whitespace characters stripped by Python's `float()` constructor. -/
def isWsChar (c : Char) : Bool :=
  c == ' ' || c == '\t' || c == '\n' || c == '\r' || c == '\x0b' || c == '\x0c'

/-- Strips leading and trailing whitespace from a character list. -/
def stripWs (cs : List Char) : List Char :=
  ((cs.dropWhile isWsChar).reverse.dropWhile isWsChar).reverse

/-- A character allowed inside a digit group of a Python float literal. -/
def isGroupChar (c : Char) : Bool := c.isDigit || c == '_'

/-- Validates the tail of a digit group: single underscores may separate
digits, but may not trail; `prevUnd` records that the previous character was
an underscore, which must be followed by a digit. -/
def groupOkTail (prevUnd : Bool) : List Char → Bool
  | [] => !prevUnd
  | c :: rest =>
    if prevUnd then c.isDigit && groupOkTail false rest
    else if c == '_' then groupOkTail true rest
    else c.isDigit && groupOkTail false rest

/-- Validates a nonempty digit group of a Python float literal: digits with
single underscores strictly between digits (`digit+('_' digit+)*`). -/
def groupOk : List Char → Bool
  | [] => false
  | c :: rest => c.isDigit && groupOkTail false rest

/-- Numeric value of the digits in a group, ignoring underscores. -/
def digitsVal (cs : List Char) : Nat :=
  cs.foldl (fun acc c => if c.isDigit then acc * 10 + (c.toNat - 48) else acc) 0

/-- Number of digits in a group (underscores do not count). -/
def digitCount (cs : List Char) : Nat := (cs.filter Char.isDigit).length

/-- Fuel-driven floor of log base 2. -/
def log2F : Nat → Nat → Nat
  | 0, _ => 0
  | fuel + 1, n => if 2 ≤ n then log2F fuel (n / 2) + 1 else 0

/-- floor of log2 n for n ≥ 1 (and 0 for n = 0); the fuel bound 5 digits + 5
dominates the bit length. -/
def natLog2 (n : Nat) : Nat := log2F (5 * (Nat.repr n).length + 5) n

/-- Decides `2 ^ k ≤ a / b` for positive naturals. -/
def le2 (a b : Nat) (k : Int) : Bool :=
  if 0 ≤ k then b * 2 ^ k.toNat ≤ a else b ≤ a * 2 ^ (-k).toNat

/-- floor of log2 (a / b) for positive naturals; the initial estimate from
the factors' logs is off by at most one. -/
def ratLog2 (a b : Nat) : Int :=
  if le2 a b ((natLog2 a : Int) - (natLog2 b : Int)) then
    (natLog2 a : Int) - (natLog2 b : Int)
  else (natLog2 a : Int) - (natLog2 b : Int) - 1

/-- Decides `10 ^ k ≤ a / b` for positive naturals. -/
def le10 (a b : Nat) (k : Int) : Bool :=
  if 0 ≤ k then b * 10 ^ k.toNat ≤ a else b ≤ a * 10 ^ (-k).toNat

/-- floor of log10 (a / b) for positive naturals, from exact decimal digit
counts with a one-test adjustment. -/
def ratLog10 (a b : Nat) : Int :=
  if le10 a b (((Nat.repr a).length : Int) - ((Nat.repr b).length : Int)) then
    ((Nat.repr a).length : Int) - ((Nat.repr b).length : Int)
  else ((Nat.repr a).length : Int) - ((Nat.repr b).length : Int) - 1

/-- Rounds a / b to the nearest natural, ties to even. -/
def rndHalfEven (a b : Nat) : Nat :=
  let f := a / b
  let r := a % b
  if 2 * r < b then f
  else if b < 2 * r then f + 1
  else if f % 2 = 0 then f else f + 1

/-- A finite IEEE-754 binary64 value in canonical sign-magnitude form:
`(-1)^neg * m * 2^e` with `m < 2^53` and either `2^52 ≤ m` or `e = -1074`
(subnormal); zero is `⟨neg, 0, 0⟩`, the sign distinguishing `-0.0`. -/
structure Dbl where
  neg : Bool
  m : Nat
  e : Int
deriving Repr, DecidableEq

/-- A Python float: a finite binary64 value, an infinity, or NaN. -/
inductive PyFloat where
  | fin (d : Dbl)
  | inf
  | ninf
  | nan
deriving Repr, DecidableEq

/-- Rounds the positive rational a / b to binary64 magnitude, nearest, ties
to even; `none` on overflow to infinity (values of exponent above 971 after
normalisation, i.e. at least `2^1024 * (1 - 2^-54)`). -/
def roundPosAB (a b : Nat) : Option (Nat × Int) :=
  let k := ratLog2 a b
  if 1023 < k then none
  else
    let E : Int := if k - 52 ≤ -1074 then -1074 else k - 52
    let M := if 0 ≤ E then rndHalfEven a (b * 2 ^ E.toNat)
      else rndHalfEven (a * 2 ^ (-E).toNat) b
    let ME := if M = 2 ^ 53 then (2 ^ 52, E + 1) else (M, E)
    if 971 < ME.2 then none
    else if ME.1 = 0 then some (0, 0)
    else some ME

/-- Rounds a signed rational a / b to a Python float. -/
def roundAB (neg : Bool) (a b : Nat) : PyFloat :=
  if a = 0 then .fin ⟨neg, 0, 0⟩
  else
    match roundPosAB a b with
    | some me => .fin ⟨neg, me.1, me.2⟩
    | none => if neg then .ninf else .inf

/-- A parsed decimal literal `(-1)^neg * mv * 10^e10`, rounded to binary64
exactly as CPython's correctly-rounded `float()` does. -/
def roundDec (neg : Bool) (mv : Nat) (e10 : Int) : PyFloat :=
  if 0 ≤ e10 then roundAB neg (mv * 10 ^ e10.toNat) 1
  else roundAB neg mv (10 ^ (-e10).toNat)

/-- Magnitude of a finite double as a fraction of naturals. -/
def Dbl.magPair (d : Dbl) : Nat × Nat :=
  if 0 ≤ d.e then (d.m * 2 ^ d.e.toNat, 1) else (d.m, 2 ^ (-d.e).toNat)

/-- Parses the mantissa part of a float literal; returns the digit value, the
number of fractional digits and the unconsumed rest. -/
def parseMantissa (cs : List Char) : Option (Nat × Nat × List Char) :=
  match cs.dropWhile isGroupChar with
  | '.' :: t =>
    if ((cs.takeWhile isGroupChar).isEmpty || groupOk (cs.takeWhile isGroupChar)) &&
        ((t.takeWhile isGroupChar).isEmpty || groupOk (t.takeWhile isGroupChar)) &&
        (!(cs.takeWhile isGroupChar).isEmpty || !(t.takeWhile isGroupChar).isEmpty) then
      some (digitsVal (cs.takeWhile isGroupChar ++ t.takeWhile isGroupChar),
        digitCount (t.takeWhile isGroupChar), t.dropWhile isGroupChar)
    else none
  | r1 => if groupOk (cs.takeWhile isGroupChar) then
      some (digitsVal (cs.takeWhile isGroupChar), 0, r1) else none

/-- Splits a leading `+`/`-` sign off a character list; the flag records a
negative sign. -/
def splitSign (cs : List Char) : Bool × List Char :=
  match cs with
  | [] => (false, [])
  | c :: t =>
    if c == '-' then (true, t)
    else if c == '+' then (false, t)
    else (false, c :: t)

/-- Parses the exponent suffix of a float literal; the whole rest must be
consumed. An absent suffix denotes exponent `0`. -/
def parseExp (cs : List Char) : Option Int :=
  match cs with
  | [] => some 0
  | c :: rest =>
    if c == 'e' || c == 'E' then
      let signRest := splitSign rest
      let g := signRest.2.takeWhile isGroupChar
      let r3 := signRest.2.dropWhile isGroupChar
      if groupOk g && r3.isEmpty then
        some (if signRest.1 then -(digitsVal g : Int) else (digitsVal g : Int))
      else none
    else none

/-- Recognises the special words `inf`, `infinity` and `nan`
(case-insensitive), already sign-split. -/
def parseSpecial (neg : Bool) (cs : List Char) : Option PyFloat :=
  let l := cs.map Char.toLower
  if l = "inf".toList || l = "infinity".toList then
    some (if neg then .ninf else .inf)
  else if l = "nan".toList then some .nan
  else none

/-- Start codepoints of the non-ASCII Unicode decimal-digit runs (each a full
run of ten consecutive digits 0–9), Unicode 14.0 as shipped with
CPython 3.11. -/
def ndRunStarts : List Nat :=
  [1632, 1776, 1984, 2406, 2534, 2662, 2790, 2918, 3046, 3174, 3302, 3430,
   3558, 3664, 3792, 3872, 4160, 4240, 6112, 6160, 6470, 6608, 6784, 6800,
   6992, 7088, 7232, 7248, 42528, 43216, 43264, 43472, 43504, 43600, 44016,
   65296, 66720, 68912, 69734, 69872, 69942, 70096, 70384, 70736, 70864,
   71248, 71360, 71472, 71904, 72016, 72784, 73040, 73120, 92768, 92864,
   93008, 120782, 120792, 120802, 120812, 120822, 123200, 123632, 125264,
   130032]

/-- `Py_UNICODE_TODECIMAL` above ASCII: the value of a Unicode decimal
digit. -/
def uniDigitVal (c : Char) : Option Nat :=
  match ndRunStarts.find? (fun s => s ≤ c.toNat && c.toNat ≤ s + 9) with
  | some s => some (c.toNat - s)
  | none => none

/-- `Py_UNICODE_ISSPACE` above ASCII: the non-ASCII Unicode whitespace
characters. -/
def uniWsChar (c : Char) : Bool :=
  c.toNat == 133 || c.toNat == 160 || c.toNat == 5760 ||
  (decide (8192 ≤ c.toNat) && decide (c.toNat ≤ 8202)) ||
  c.toNat == 8232 || c.toNat == 8233 ||
  c.toNat == 8239 || c.toNat == 8287 || c.toNat == 12288

/-- One character of CPython's decimal-and-space transform: codepoints below
DEL are kept, Unicode whitespace becomes a plain space, Unicode decimal
digits become the matching ASCII digits, and anything else becomes `?`, which
no float literal contains. -/
def toAsciiDigit (c : Char) : Char :=
  if c.toNat < 127 then c
  else if uniWsChar c then ' '
  else match uniDigitVal c with
    | some d => Char.ofNat (48 + d)
    | none => '?'

/-- CPython's `_PyUnicode_TransformDecimalAndSpaceToASCII`, which `float()`
applies before the ASCII parse: all-ASCII strings pass through unchanged (the
fast path), any other string is transformed character by character. -/
def transformDecimal (cs : List Char) : List Char :=
  if cs.all (fun c => decide (c.toNat < 128)) then cs else cs.map toAsciiDigit

/-- Python `float(s)` on a character list: transform Unicode digits and
whitespace to ASCII, strip whitespace, split an optional sign, then read
either a decimal literal (optional integer part, optional fractional part,
optional exponent, underscores between digits) or one of the special words;
a finite literal is rounded to the nearest binary64 value. Returns `none`
exactly when `float()` raises `ValueError`. -/
def pyFloatOfChars (cs0 : List Char) : Option PyFloat :=
  match parseMantissa (splitSign (stripWs (transformDecimal cs0))).2 with
  | some (mv, fc, rest) =>
    match parseExp rest with
    | some ex =>
      some (roundDec (splitSign (stripWs (transformDecimal cs0))).1 mv (ex - (fc : Int)))
    | none => parseSpecial (splitSign (stripWs (transformDecimal cs0))).1
        (splitSign (stripWs (transformDecimal cs0))).2
  | none => parseSpecial (splitSign (stripWs (transformDecimal cs0))).1
      (splitSign (stripWs (transformDecimal cs0))).2

/-- Python `float(s)` for a string. -/
def pyFloatOfString (s : String) : Option PyFloat := pyFloatOfChars s.toList

/-- Embeds `is_numeric` from `src/main.py`: `None` is not numeric, a string is
numeric iff `float()` accepts it. -/
def is_numeric (value : Option String) : Bool :=
  match value with
  | none => false
  | some s => (pyFloatOfString s).isSome

/-- Signed mantissa of a finite double. -/
def Dbl.sm (d : Dbl) : Int := if d.neg then -(d.m : Int) else (d.m : Int)

/-- Exact rational value of a finite double. -/
def Dbl.toRat (d : Dbl) : ℚ := (d.sm : ℚ) * (2 : ℚ) ^ d.e

/-- Exact comparison of two doubles by cross-multiplication: the sides are
brought to the common smaller binary exponent and the signed integer
mantissas are compared; `-0.0 < 0.0` is false, as in IEEE-754. -/
def Dbl.blt (a b : Dbl) : Bool :=
  if a.e ≤ b.e then a.sm < b.sm * 2 ^ (b.e - a.e).toNat
  else a.sm * 2 ^ (a.e - b.e).toNat < b.sm

/-- Exact equality of two doubles by cross-multiplication; `-0.0 == 0.0`. -/
def Dbl.beq (a b : Dbl) : Bool :=
  if a.e ≤ b.e then a.sm = b.sm * 2 ^ (b.e - a.e).toNat
  else a.sm * 2 ^ (a.e - b.e).toNat = b.sm

/-- Python `<` on floats: any comparison involving NaN is false. -/
def pfLt : PyFloat → PyFloat → Bool
  | .nan, _ => false
  | _, .nan => false
  | .fin a, .fin b => a.blt b
  | .fin _, .inf => true
  | .fin _, .ninf => false
  | .inf, _ => false
  | .ninf, .ninf => false
  | .ninf, _ => true

/-- Python `==` on floats: NaN is not equal to anything, including itself. -/
def pfEq : PyFloat → PyFloat → Bool
  | .fin a, .fin b => a.beq b
  | .inf, .inf => true
  | .ninf, .ninf => true
  | _, _ => false

/-- Python `<=` on floats. -/
def pfLe (a b : PyFloat) : Bool := pfLt a b || pfEq a b

/-- Python `<` on strings: lexicographic comparison of code points. -/
def charsLt : List Char → List Char → Bool
  | [], [] => false
  | [], _ :: _ => true
  | _ :: _, [] => false
  | a :: as, b :: bs =>
    if a.toNat < b.toNat then true
    else if b.toNat < a.toNat then false
    else charsLt as bs

/-- A loaded row: ordered association list from column name to field value,
modelling the insertion-ordered `Dict[str, str]` produced by `csv.DictReader`. -/
abbrev Row := List (String × String)

/-- Python `row.get(k)`: the value of the first matching key, if any. -/
def Row.get (r : Row) (k : String) : Option String :=
  match r.find? (fun p => p.1 == k) with
  | some p => some p.2
  | none => none

/-- Python `k in row`. -/
def Row.hasKey (r : Row) (k : String) : Bool := r.any (fun p => p.1 == k)

/-- An ordered dataset of rows. -/
abbrev CSVData := List Row

/-- The float value of a row's field for a column, when the field is present
and parses: `float(row.get(key))`. -/
def parsedVal (key : String) (r : Row) : Option PyFloat :=
  (r.get key).bind pyFloatOfString

/-- Exceptions relevant to this program. -/
inductive PyErr where
  | valueError (msg : String)
  | typeError (msg : String)
deriving Repr, DecidableEq

/-- The three comparison operators supported by `WhereProcessor`. -/
inductive WOp where
  | eq
  | gt
  | lt
deriving Repr, DecidableEq

/-- State of a constructed `WhereProcessor`. -/
structure WhereProcessor where
  key : String
  op : WOp
  value_str : String
  is_numeric_comparison : Bool
deriving Repr, DecidableEq

/-- Embeds `WhereProcessor.__init__`. For a supported operator it stores the
operator and `is_numeric(value)`. For an unsupported operator the source reads
`raise ValueError(f'... {List(self.OPERATORS.keys())}')`, but `List` there is
`typing.List`, and calling it raises
`TypeError: Type List cannot be instantiated; use list() instead` while the
message is being built — so construction actually fails with a `TypeError`,
and the intended `ValueError` is never raised. -/
def WhereProcessor.init (key op_str value : String) : Except PyErr WhereProcessor :=
  if op_str = "=" then .ok ⟨key, .eq, value, is_numeric (some value)⟩
  else if op_str = ">" then .ok ⟨key, .gt, value, is_numeric (some value)⟩
  else if op_str = "<" then .ok ⟨key, .lt, value, is_numeric (some value)⟩
  else .error (.typeError "Type List cannot be instantiated; use list() instead")

/-- Applies a comparison operator to two floats. -/
def pfApplyOp : WOp → PyFloat → PyFloat → Bool
  | .eq, a, b => pfEq a b
  | .gt, a, b => pfLt b a
  | .lt, a, b => pfLt a b

/-- Applies a comparison operator to two strings, as Python compares `str`. -/
def strApplyOp : WOp → String → String → Bool
  | .eq, a, b => a == b
  | .gt, a, b => charsLt b.toList a.toList
  | .lt, a, b => charsLt a.toList b.toList

/-- The per-row test of `WhereProcessor.process`: rows whose field is absent
are dropped; in numeric mode both sides must parse as floats (otherwise the
row is silently dropped) and the operator is applied to the floats; otherwise
the operator is applied to the raw strings. -/
def WhereProcessor.rowKeep (p : WhereProcessor) (row : Row) : Bool :=
  match row.get p.key with
  | none => false
  | some v =>
    if p.is_numeric_comparison then
      match pyFloatOfString v, pyFloatOfString p.value_str with
      | some a, some b => pfApplyOp p.op a b
      | _, _ => false
    else strApplyOp p.op v p.value_str

/-- Embeds `WhereProcessor.process`: empty data passes through; if the first
row lacks the key a warning is emitted and the result is empty; otherwise the
rows satisfying the predicate are kept in order. The second component is the
list of warnings printed to stderr. -/
def WhereProcessor.process (p : WhereProcessor) (data : CSVData) :
    CSVData × List String :=
  match data with
  | [] => ([], [])
  | r0 :: _ =>
    if r0.hasKey p.key then (data.filter p.rowKeep, [])
    else ([], ["Warning: key " ++ p.key ++ " not found"])

/-!
Stable sorting. Python's `sorted` is a stable sort; whenever the comparison is
a total preorder on the elements being sorted, every stable sort produces the
same permutation, so we model it by stable insertion sort. The theorems about
`OrderByProcessor` all carry a no-NaN hypothesis, under which the row
comparison below is a total preorder, making the model faithful.
-/

/-- Stable insertion: `x` is placed before the first element `y` with
`le x y`, hence before all later elements tied with `x`. -/
def sInsert {α : Type} (le : α → α → Bool) (x : α) : List α → List α
  | [] => [x]
  | y :: ys => if le x y then x :: y :: ys else y :: sInsert le x ys

/-- Stable insertion sort. -/
def sSort {α : Type} (le : α → α → Bool) : List α → List α
  | [] => []
  | x :: xs => sInsert le x (sSort le xs)

/-- The sort key computed by `OrderByProcessor.process`: a float when the
column was judged numeric, otherwise a raw string. -/
inductive SKey where
  | num (f : PyFloat)
  | str (s : String)
deriving Repr, DecidableEq

/-- Python `<=` on sort keys. Keys of different shapes never arise within one
sort, so that case is arbitrary. -/
def skeyLe : SKey → SKey → Bool
  | .num a, .num b => pfLe a b
  | .str a, .str b => !charsLt b.toList a.toList
  | _, _ => false

/-- State of a constructed `OrderByProcessor`. -/
structure OrderByProcessor where
  key : String
  reverse : Bool
deriving Repr, DecidableEq

/-- The `sort_key` closure of `OrderByProcessor.process`. When the column is
numeric, a parsed float, with rows that fail to parse (including rows missing
the key, whose `float(None)` raises `TypeError`) mapped to `-inf` when
descending and `+inf` when ascending; otherwise the raw string, with an
absent value read as the empty string. -/
def OrderByProcessor.sortKey (p : OrderByProcessor) (isColNum : Bool)
    (row : Row) : SKey :=
  if isColNum then
    match parsedVal p.key row with
    | some f => .num f
    | none => .num (if p.reverse then .ninf else .inf)
  else .str ((row.get p.key).getD "")

/-- Row comparison used by the model of `sorted(data, key=sort_key,
reverse=self.reverse)`: `reverse=True` flips the key comparison while keeping
stability. -/
def rowLe (p : OrderByProcessor) (isColNum : Bool) (r1 r2 : Row) : Bool :=
  if p.reverse then skeyLe (p.sortKey isColNum r2) (p.sortKey isColNum r1)
  else skeyLe (p.sortKey isColNum r1) (p.sortKey isColNum r2)

/-- Embeds `OrderByProcessor.process`: empty data and data whose first row
lacks the key pass through unchanged (the latter with a warning); otherwise
the column is numeric if any row's value is numeric, and the rows are stably
sorted by the corresponding keys. -/
def OrderByProcessor.process (p : OrderByProcessor) (data : CSVData) :
    CSVData × List String :=
  match data with
  | [] => ([], [])
  | r0 :: _ =>
    if r0.hasKey p.key then
      let isColNum := data.any (fun r => is_numeric (some ((r.get p.key).getD "")))
      (sSort (rowLe p isColNum) data, [])
    else (data, ["Warning: key " ++ p.key ++ " not found"])

/-!
Aggregation. `statistics.mean` computes the exact mean of the inputs (it sums
exact integer ratios) and rounds it to the nearest binary64 float on return;
`min`/`max` scan keeping the first extremum. Results are formatted with
`f'{result:.2f}'` for `avg` (the exact binary value of the double rounded to
two decimals, ties to even) and `str(result)` for `min`/`max` (the shortest
decimal string that parses back to the same double, positional or scientific
by the decimal exponent).
-/

/-- The finite part of a float. -/
def finPart : PyFloat → Option Dbl
  | .fin d => some d
  | _ => none

/-- Python `min(xs)`: keeps the first element, replacing it whenever a later
item compares strictly below the current one. -/
def pyMinFold (x : PyFloat) (xs : List PyFloat) : PyFloat :=
  xs.foldl (fun acc v => if pfLt v acc then v else acc) x

/-- Python `max(xs)`. -/
def pyMaxFold (x : PyFloat) (xs : List PyFloat) : PyFloat :=
  xs.foldl (fun acc v => if pfLt acc v then v else acc) x

/-- The smallest binary exponent of a list of doubles, capped at zero. -/
def eminOf (ds : List Dbl) : Int :=
  ds.foldl (fun a d => if d.e ≤ a then d.e else a) 0

/-- The signed mantissa sum of a list of doubles, brought to the common
exponent `E`. -/
def mantSum (ds : List Dbl) (E : Int) : Int :=
  ds.foldl (fun a d => a + d.sm * 2 ^ (d.e - E).toNat) 0

/-- Exact mean of a list of doubles, computed with integer arithmetic over the
common smallest exponent: the exact `Fraction` mean `statistics.mean` forms
internally. -/
def meanQ (ds : List Dbl) : ℚ :=
  if 0 ≤ eminOf ds then
    mkRat (mantSum ds (eminOf ds) * 2 ^ (eminOf ds).toNat) ds.length
  else mkRat (mantSum ds (eminOf ds)) (ds.length * 2 ^ (-(eminOf ds)).toNat)

/-- Rounds an exact rational to the nearest binary64 Python float, the
conversion `statistics.mean` performs when returning its exact `Fraction`
mean as a float. -/
def roundQ (q : ℚ) : PyFloat :=
  if q.num = 0 then .fin ⟨false, 0, 0⟩
  else roundAB (decide (q.num < 0)) q.num.natAbs q.den

/-- Models `statistics.mean` over a list of floats: NaN or mixed infinities
give NaN, a single-signed infinity propagates, and finite inputs give the
exact rational mean rounded to the nearest double. -/
def pyMean (vals : List PyFloat) : PyFloat :=
  if vals.any (fun v => v == PyFloat.nan) then .nan
  else if (vals.any (fun v => v == PyFloat.inf)) &&
      (vals.any (fun v => v == PyFloat.ninf)) then .nan
  else if vals.any (fun v => v == PyFloat.inf) then .inf
  else if vals.any (fun v => v == PyFloat.ninf) then .ninf
  else roundQ (meanQ (vals.filterMap finPart))

/-- Scales the fraction `a / b` by `10 ^ s`. -/
def scale10 (a b : Nat) (s : Int) : Nat × Nat :=
  if 0 ≤ s then (a * 10 ^ s.toNat, b) else (a, b * 10 ^ (-s).toNat)

/-- Tries a list of digit candidates of precision `p` for the shortest-repr
search: a candidate `(c, k)` stands for `c * 10 ^ (k - p + 1)` and is accepted
when re-parsing it rounds back to the target double. -/
def pickCand (p : Nat) (target : Dbl) : List (Nat × Int) → Option (Nat × Int)
  | [] => none
  | ck :: rest =>
    if roundDec false ck.1 (ck.2 - (p : Int) + 1) == PyFloat.fin target then some ck
    else pickCand p target rest

/-- Both precision-`p` decimal candidates for the value `a / b` with decimal
exponent `k`, nearest first (ties preferring even), with carry renormalisation
when rounding up reaches `10 ^ p`. -/
def candsAt (a b : Nat) (k : Int) (p : Nat) : List (Nat × Int) :=
  let ab := scale10 a b ((p : Int) - 1 - k)
  let f := ab.1 / ab.2
  let r := ab.1 % ab.2
  let norm : Nat → Nat × Int := fun c => if c = 10 ^ p then (10 ^ (p - 1), k + 1) else (c, k)
  if 2 * r < ab.2 then [norm f, norm (f + 1)]
  else if ab.2 < 2 * r then [norm (f + 1), norm f]
  else if f % 2 = 0 then [norm f, norm (f + 1)]
  else [norm (f + 1), norm f]

/-- Shortest-round-trip digit search over precisions 1 up to 17: the least
number of significant decimal digits whose nearest rounding re-parses to the
target double, preferring the closer candidate. -/
def searchDigits (a b : Nat) (k : Int) (target : Dbl) : Nat → Nat → Nat × Int
  | 0, p => (candsAt a b k p).headD (1, k)
  | fuel + 1, p =>
    match pickCand p target (candsAt a b k p) with
    | some dk => dk
    | none => searchDigits a b k target fuel (p + 1)

/-- Renders the digit string `D` with decimal exponent `k` (value
`D * 10 ^ (k - p + 1)` where `p` is the digit count) the way CPython renders
a float: positional for `-4 ≤ k < 16` (whole numbers get a trailing `.0`),
scientific `de±XX` otherwise, with the exponent padded to two digits. -/
def fmtDigits (dk : Nat × Int) : String :=
  if -4 ≤ dk.2 ∧ dk.2 < 16 then
    if ((Nat.repr dk.1).toList.length : Int) - 1 ≤ dk.2 then
      String.mk (Nat.repr dk.1).toList ++
        String.mk (List.replicate (dk.2 - (((Nat.repr dk.1).toList.length : Int) - 1)).toNat '0') ++ ".0"
    else if 0 ≤ dk.2 then
      String.mk ((Nat.repr dk.1).toList.take (dk.2 + 1).toNat) ++ "." ++
        String.mk ((Nat.repr dk.1).toList.drop (dk.2 + 1).toNat)
    else
      "0." ++ String.mk (List.replicate (-dk.2 - 1).toNat '0') ++
        String.mk (Nat.repr dk.1).toList
  else
    (String.mk ((Nat.repr dk.1).toList.take 1) ++
      (if (Nat.repr dk.1).toList.length ≤ 1 then ""
       else "." ++ String.mk ((Nat.repr dk.1).toList.drop 1))) ++
    "e" ++ (if dk.2 < 0 then "-" else "+") ++
    (if dk.2.natAbs < 10 then "0" else "") ++ Nat.repr dk.2.natAbs

/-- CPython `repr`/`str` of a finite double: the sign, then the shortest
decimal digit string that parses back to the same double, laid out positionally
or scientifically by the magnitude of the decimal exponent. -/
def pyStrDbl (d : Dbl) : String :=
  (if d.neg then "-" else "") ++
    (if d.m = 0 then "0.0"
     else fmtDigits (searchDigits d.magPair.1 d.magPair.2
       (ratLog10 d.magPair.1 d.magPair.2) ⟨false, d.m, d.e⟩ 18 1))

/-- Python `str` of a float. -/
def pyStr : PyFloat → String
  | .fin d => pyStrDbl d
  | .inf => "inf"
  | .ninf => "-inf"
  | .nan => "nan"

/-- CPython `f'{x:.2f}'` on a finite double: the exact binary value rounded
to two decimals, ties to even. -/
def fmtDot2 (d : Dbl) : String :=
  (if d.neg then "-" else "") ++
    (Nat.repr (rndHalfEven (d.magPair.1 * 100) d.magPair.2 / 100) ++ "." ++
      (if rndHalfEven (d.magPair.1 * 100) d.magPair.2 % 100 < 10 then "0" else "") ++
      Nat.repr (rndHalfEven (d.magPair.1 * 100) d.magPair.2 % 100))

/-- Python `f'{x:.2f}'` on a float. -/
def pyFormat2 : PyFloat → String
  | .fin d => fmtDot2 d
  | .inf => "inf"
  | .ninf => "-inf"
  | .nan => "nan"

/-- The three aggregate functions of `AggregateProcessor.AGG_FUNCS`. -/
inductive AggFunc where
  | amin
  | amax
  | aavg
deriving Repr, DecidableEq

/-- The dictionary key naming each aggregate function. -/
def AggFunc.str : AggFunc → String
  | .amin => "min"
  | .amax => "max"
  | .aavg => "avg"

/-- State of a constructed `AggregateProcessor`. -/
structure AggregateProcessor where
  key : String
  func : AggFunc
deriving Repr, DecidableEq

/-- Embeds `AggregateProcessor.__init__`: unsupported function names raise
`ValueError` at construction time. -/
def AggregateProcessor.init (key fstr : String) : Except PyErr AggregateProcessor :=
  if fstr = "min" then .ok ⟨key, .amin⟩
  else if fstr = "max" then .ok ⟨key, .amax⟩
  else if fstr = "avg" then .ok ⟨key, .aavg⟩
  else .error (.valueError ("Unsupported aggregate function: " ++ fstr))

/-- Embeds `AggregateProcessor.process`. Due to the indentation of the guard
in the source, empty data falls through to the collection loop and produces
the "no numeric data" warning; a non-empty dataset whose first row lacks the
key warns "not found". Otherwise every value that parses as a float is
collected (rows missing the key or failing to parse are silently skipped); if
none survive, a warning is emitted; otherwise the single-row, single-column
result keyed by the function name is returned. -/
def AggregateProcessor.process (p : AggregateProcessor) (data : CSVData) :
    CSVData × List String :=
  match data with
  | [] => ([], ["Warning: no numeric data in column " ++ p.key ++ " to aggregate"])
  | r0 :: _ =>
    if r0.hasKey p.key then
      match data.filterMap (parsedVal p.key) with
      | [] => ([], ["Warning: no numeric data in column " ++ p.key ++ " to aggregate"])
      | v :: vs =>
        ([[(p.func.str,
          match p.func with
          | .amin => pyStr (pyMinFold v vs)
          | .amax => pyStr (pyMaxFold v vs)
          | .aavg => pyFormat2 (pyMean (v :: vs)))]], [])
    else ([], ["Warning: key " ++ p.key ++ " for aggregation not found"])

/-!
Console rendering, modelled as a pure description of what would be drawn.
-/

/-- A column of the rendered table: header text and whether the column was
classified numeric (right-aligned, numeric style) or not (left-aligned,
default style). -/
structure ColumnDef where
  header : String
  isNum : Bool
deriving Repr, DecidableEq

/-- What `ConsoleViewer.show` draws: either the "Nothing to display" notice or
a table with an optional title, column definitions and string rows. -/
inductive RenderOutput where
  | nothingMsg
  | table (title : Option String) (cols : List ColumnDef) (rows : List (List String))
deriving Repr, DecidableEq

/-- Embeds `ConsoleViewer._determine_column_types` for one column: scan rows
in order until the first non-empty value; the column is numeric iff that value
is numeric; all-empty columns default to non-numeric. -/
def columnIsNumeric (data : CSVData) (h : String) : Bool :=
  match data.find? (fun r => !((r.get h).getD "" == "")) with
  | some r => is_numeric (some ((r.get h).getD ""))
  | none => false

set_option linter.unusedVariables false in
/-- Embeds `ConsoleViewer.show`: empty data prints the notice; otherwise a
table is built from the first row's key order with per-column numeric styling
and all row values. The source builds `Table(...)` without ever passing a
`title`, so the rendered table carries no title and `source_name` is unused. -/
def ConsoleViewer.show (data : CSVData) (source_name : String) : RenderOutput :=
  match data with
  | [] => .nothingMsg
  | r0 :: _ =>
    let headers := r0.map (fun p => p.1)
    let cols := headers.map (fun h => ColumnDef.mk h (columnIsNumeric data h))
    let rows := data.map (fun r => r.map (fun p => p.2))
    .table none cols rows

/-- Title of a render result, if any. -/
def titleOf : RenderOutput → Option String
  | .nothingMsg => none
  | .table t _ _ => t

/-- The single-row, single-column Aggregate Result shape from the spec's data
model. -/
def isAggregateResultShape (data : CSVData) : Bool :=
  match data with
  | [r] => r.length == 1
  | _ => false

/-- Python `str.split(sep)` for a single-character separator. -/
def splitOnChar (sep : Char) : List Char → List (List Char)
  | [] => [[]]
  | c :: rest =>
    if c == sep then [] :: splitOnChar sep rest
    else
      match splitOnChar sep rest with
      | h :: t => (c :: h) :: t
      | [] => [[c]]

/-- Modelled from the spec (section 4.6): the derived title a viewer would
show — base filename without extension, underscores replaced by spaces,
title-cased. `ConsoleViewer.show` in the source never computes any title;
this definition exists only to compare the spec's claim against the code. -/
def derivedTitleSpec (label : String) : String :=
  let base := (label.toList.reverse.takeWhile (fun c => !(c == '/'))).reverse
  let noExt :=
    if base.any (fun c => c == '.') then
      ((base.reverse.dropWhile (fun c => !(c == '.'))).reverse).dropLast
    else base
  let spaced := noExt.map (fun c => if c == '_' then ' ' else c)
  let capWord : List Char → List Char := fun w =>
    match w with
    | [] => []
    | c :: rest => c.toUpper :: rest.map Char.toLower
  String.mk (List.intercalate [' '] ((splitOnChar ' ' spaced).map capWord))

/-!
CLI features and the application pipeline.
-/

/-- Python `str.strip()` (ASCII whitespace) producing a string. -/
def stripS (cs : List Char) : String := String.mk (stripWs cs)

/-- Splits a character list at the first occurrence of `=`, `<` or `>`,
mirroring the regex `^([^=<>]+)([=<>])(.*)$`: the first group is the maximal
operator-free prefix. -/
def splitAtFirstOp : List Char → Option (List Char × Char × List Char)
  | [] => none
  | c :: rest =>
    if c == '=' || c == '<' || c == '>' then some ([], c, rest)
    else
      match splitAtFirstOp rest with
      | some (pre, op, post) => some (c :: pre, op, post)
      | none => none

/-- Embeds `WhereFeature.create_processor`: match the regex
`^([^=<>]+)([=<>])(.*)$` (the unanchored tail group cannot cross a newline,
and `$` also accepts a single trailing newline), strip the captured groups and
construct the processor. -/
def WhereFeature.create_processor (value : String) : Except PyErr WhereProcessor :=
  match splitAtFirstOp value.toList with
  | none => .error (.valueError ("Invalid --where clause: " ++ value))
  | some (pre, op, post) =>
    if pre.isEmpty then .error (.valueError ("Invalid --where clause: " ++ value))
    else
      let r1 := post.takeWhile (fun c => !(c == '\n'))
      let r2 := post.drop r1.length
      if r2 = [] || r2 = ['\n'] then
        WhereProcessor.init (stripS pre) (String.mk [op]) (stripS r1)
      else .error (.valueError ("Invalid --where clause: " ++ value))

/-- Embeds `OrderByFeature.create_processor`: split on `=`, direction defaults
to `asc`; the direction token is stripped and lower-cased; anything other than
`asc`/`desc` raises `ValueError`. Parts beyond the second are ignored. -/
def OrderByFeature.create_processor (value : String) : Except PyErr OrderByProcessor :=
  match splitOnChar '=' value.toList with
  | [] => .error (.valueError ("Invalid sort direction " ++ value))
  | p0 :: rest =>
    let key := stripS p0
    let direction :=
      match rest with
      | [] => "asc"
      | p1 :: _ => String.mk ((stripWs p1).map Char.toLower)
    if direction = "asc" then .ok ⟨key, false⟩
    else if direction = "desc" then .ok ⟨key, true⟩
    else .error (.valueError ("Invalid sort direction " ++ direction))

/-- Embeds `AggregateFeature.create_processor`: exactly one `=` is required;
both parts are stripped and the function token lower-cased before the
processor is constructed. -/
def AggregateFeature.create_processor (value : String) : Except PyErr AggregateProcessor :=
  match splitOnChar '=' value.toList with
  | [p0, p1] => AggregateProcessor.init (stripS p0) (String.mk ((stripWs p1).map Char.toLower))
  | _ => .error (.valueError ("Invalid aggregate format: " ++ value))

/-- A configured data processor of the pipeline. -/
inductive Proc where
  | whereP (p : WhereProcessor)
  | orderP (p : OrderByProcessor)
  | aggP (p : AggregateProcessor)
deriving Repr, DecidableEq

/-- Dispatches `process` on a configured processor. -/
def Proc.apply : Proc → CSVData → CSVData × List String
  | .whereP p, d => p.process d
  | .orderP p, d => p.process d
  | .aggP p, d => p.process d

/-- One step of the processor chain, threading the dataset and accumulating
warnings. -/
def stepProc (acc : CSVData × List String) (p : Proc) : CSVData × List String :=
  let r := p.apply acc.1
  (r.1, acc.2 ++ r.2)

/-- Applies the configured processors in order, feeding each processor's
output to the next and collecting all warnings. -/
def applyAll (ps : List Proc) (data : CSVData) : CSVData × List String :=
  ps.foldl stepProc (data, [])

/-- Embeds `CSVApplication.run` on already-loaded data: process the dataset
through the chain and hand the result to the viewer. The first component is
the list of viewer invocations (always exactly one). -/
def CSVApplication.run (ps : List Proc) (data : CSVData) (source_file : String) :
    List RenderOutput × List String :=
  let r := applyAll ps data
  ([ConsoleViewer.show r.1 source_file], r.2)

/-- One feature's contribution to the processor list in `main`: absent or
empty (falsy) argument values contribute nothing; otherwise the feature's
`create_processor` runs and its error aborts configuration. -/
def featItem (parse : String → Except PyErr Proc) (arg : Option String) :
    Except PyErr (List Proc) :=
  match arg with
  | none => .ok []
  | some s => if s = "" then .ok [] else (parse s).map (fun p => [p])

/-- The `--where` item of the feature loop. -/
def whereItem (arg : Option String) : Except PyErr (List Proc) :=
  featItem (fun s => (WhereFeature.create_processor s).map Proc.whereP) arg

/-- The `--order-by` item of the feature loop. -/
def orderItem (arg : Option String) : Except PyErr (List Proc) :=
  featItem (fun s => (OrderByFeature.create_processor s).map Proc.orderP) arg

/-- The `--aggregate` item of the feature loop. -/
def aggItem (arg : Option String) : Except PyErr (List Proc) :=
  featItem (fun s => (AggregateFeature.create_processor s).map Proc.aggP) arg

/-- Embeds the processor-construction loop of `main`: the features list is
iterated in its fixed order `[WhereFeature, OrderByFeature, AggregateFeature]`
regardless of the order in which the flags appeared on the command line
(argparse stores them by name). -/
def buildProcessors (w o a : Option String) : Except PyErr (List Proc) := do
  let l1 ← whereItem w
  let l2 ← orderItem o
  let l3 ← aggItem a
  pure (l1 ++ l2 ++ l3)

/-- Observable outcome of a run of `main` after loading succeeded. -/
inductive AppOutcome where
  | ok (renders : List RenderOutput) (stderrLines : List String)
  | configError (msg : String)
  | uncaught (err : PyErr)
deriving Repr, DecidableEq

/-- Process exit code of an outcome: `0` on success, `1` both for the caught
`ValueError` path (`sys.exit(1)`) and for an unhandled exception. -/
def AppOutcome.exitCode : AppOutcome → Nat
  | .ok _ _ => 0
  | .configError _ => 1
  | .uncaught _ => 1

/-- Embeds the error handling of `main` around the feature loop: a
`ValueError` is caught and reported as `Error: ...` with exit code 1; any
other exception (in particular the `TypeError` from the unsupported-operator
path) propagates unhandled. -/
def runOrReport (built : Except PyErr (List Proc)) (data : CSVData)
    (src : String) : AppOutcome :=
  match built with
  | .ok ps =>
    let r := CSVApplication.run ps data src
    .ok r.1 r.2
  | .error (.valueError m) => .configError ("Error: " ++ m)
  | .error e => .uncaught e

/-- Embeds `main` from configuration to rendering, on already-loaded data. -/
def mainModel (w o a : Option String) (data : CSVData) (src : String) : AppOutcome :=
  runOrReport (buildProcessors w o a) data src

/-- Body of a plain decimal number, written from the spec's words for C1: one
or more digits, optionally followed by a decimal point and one or more
digits. -/
def plainBody (body : List Char) : Bool :=
  match body.dropWhile Char.isDigit with
  | [] => !(body.takeWhile Char.isDigit).isEmpty
  | '.' :: t => !(body.takeWhile Char.isDigit).isEmpty && !t.isEmpty &&
      t.all Char.isDigit
  | _ => false

/-- Spec-level classifier for C1: "a (possibly signed, possibly fractional)
decimal number" — an optional sign followed by a plain decimal body, nothing
else. This is the refinement target the source's `is_numeric` is compared
against; it is deliberately written from the spec's words, not from the
code. -/
def isPlainDecimalString (s : String) : Bool :=
  plainBody (splitSign s.toList).2

example : is_numeric (some "123") = true := by decide
example : is_numeric (some "123.45") = true := by decide
example : is_numeric (some "-10") = true := by decide
example : is_numeric (some "abc") = false := by decide
example : is_numeric none = false := by decide
example : is_numeric (some "") = false := by decide
example : is_numeric (some "12abc") = false := by decide
example : is_numeric (some "inf") = true := by decide
example : is_numeric (some "-Infinity") = true := by decide
example : is_numeric (some "١٢٣") = true := by decide
example : pyFloatOfString "١٢٣" = pyFloatOfString "123" := by decide
example : pyFloatOfString "١٢٧.٥" = pyFloatOfString "127.5" := by decide
example : is_numeric (some "1\u0085") = true := by decide
example : is_numeric (some "\x1c12") = false := by decide
example : is_numeric (some "nan") = true := by decide
example : is_numeric (some "1e5") = true := by decide
example : is_numeric (some " 12 ") = true := by decide
example : is_numeric (some "1_000.5") = true := by decide
example : is_numeric (some "1_.5") = false := by decide
example : is_numeric (some "1.") = true := by decide
example : is_numeric (some ".5") = true := by decide
example : is_numeric (some ".") = false := by decide
example : is_numeric (some "+4.9") = true := by decide
example : pyFloatOfString "-1.5e-2" = some (.fin ⟨true, 8646911284551352, -59⟩) := by decide
example : pyFloatOfString "999" = some (.fin ⟨false, 8787296929185792, -43⟩) := by decide
example : pyFloatOfString "0.1" = some (.fin ⟨false, 7205759403792794, -56⟩) := by decide
example : pyFloatOfString "0.10000000000000000002" =
    some (.fin ⟨false, 7205759403792794, -56⟩) := by decide
example : pyFloatOfString "1e400" = some .inf := by decide
example : pyFloatOfString "-1e400" = some .ninf := by decide

theorem Dbl.blt_iff (a b : Dbl) : a.blt b = true ↔ a.toRat < b.toRat := by
  unfold Dbl.blt Dbl.toRat
  have h10 : (0 : ℚ) < (2 : ℚ) ^ (-(min a.e b.e)) := zpow_pos (by norm_num) _
  rw [show ((a.sm : ℚ) * 2 ^ a.e < (b.sm : ℚ) * 2 ^ b.e ↔
      (a.sm : ℚ) * 2 ^ a.e * 2 ^ (-(min a.e b.e)) <
        (b.sm : ℚ) * 2 ^ b.e * 2 ^ (-(min a.e b.e))) from
    (mul_lt_mul_right h10).symm]
  rw [mul_assoc, mul_assoc, ← zpow_add₀ (by norm_num : (2:ℚ) ≠ 0),
    ← zpow_add₀ (by norm_num : (2:ℚ) ≠ 0)]
  by_cases h : a.e ≤ b.e
  · have hmin : min a.e b.e = a.e := min_eq_left h
    rw [hmin]
    have h1 : a.e + -a.e = 0 := by ring
    have h2 : b.e + -a.e = ((b.e - a.e).toNat : ℤ) := by
      rw [Int.toNat_of_nonneg (by omega)]; ring
    rw [h1, h2, zpow_natCast, zpow_zero, mul_one]
    simp only [if_pos h, decide_eq_true_eq]
    rw [show ((b.sm : ℚ) * (2 : ℚ) ^ (b.e - a.e).toNat =
        ((b.sm * 2 ^ (b.e - a.e).toNat : ℤ) : ℚ)) from by push_cast; ring]
    exact_mod_cast Iff.rfl
  · have hmin : min a.e b.e = b.e := min_eq_right (le_of_not_le h)
    rw [hmin]
    have h1 : b.e + -b.e = 0 := by ring
    have h2 : a.e + -b.e = ((a.e - b.e).toNat : ℤ) := by
      rw [Int.toNat_of_nonneg (by omega)]; ring
    rw [h1, h2, zpow_natCast, zpow_zero, mul_one]
    simp only [if_neg h, decide_eq_true_eq]
    rw [show ((a.sm : ℚ) * (2 : ℚ) ^ (a.e - b.e).toNat =
        ((a.sm * 2 ^ (a.e - b.e).toNat : ℤ) : ℚ)) from by push_cast; ring]
    exact_mod_cast Iff.rfl

theorem Dbl.beq_iff (a b : Dbl) : a.beq b = true ↔ a.toRat = b.toRat := by
  unfold Dbl.beq Dbl.toRat
  have h10 : ((2 : ℚ) ^ (-(min a.e b.e))) ≠ 0 := zpow_ne_zero _ (by norm_num)
  rw [show ((a.sm : ℚ) * 2 ^ a.e = (b.sm : ℚ) * 2 ^ b.e ↔
      (a.sm : ℚ) * 2 ^ a.e * 2 ^ (-(min a.e b.e)) =
        (b.sm : ℚ) * 2 ^ b.e * 2 ^ (-(min a.e b.e))) from
    (mul_left_inj' h10).symm]
  rw [mul_assoc, mul_assoc, ← zpow_add₀ (by norm_num : (2:ℚ) ≠ 0),
    ← zpow_add₀ (by norm_num : (2:ℚ) ≠ 0)]
  by_cases h : a.e ≤ b.e
  · have hmin : min a.e b.e = a.e := min_eq_left h
    rw [hmin]
    have h1 : a.e + -a.e = 0 := by ring
    have h2 : b.e + -a.e = ((b.e - a.e).toNat : ℤ) := by
      rw [Int.toNat_of_nonneg (by omega)]; ring
    rw [h1, h2, zpow_natCast, zpow_zero, mul_one]
    simp only [if_pos h, decide_eq_true_eq]
    rw [show ((b.sm : ℚ) * (2 : ℚ) ^ (b.e - a.e).toNat =
        ((b.sm * 2 ^ (b.e - a.e).toNat : ℤ) : ℚ)) from by push_cast; ring]
    exact_mod_cast Iff.rfl
  · have hmin : min a.e b.e = b.e := min_eq_right (le_of_not_le h)
    rw [hmin]
    have h1 : b.e + -b.e = 0 := by ring
    have h2 : a.e + -b.e = ((a.e - b.e).toNat : ℤ) := by
      rw [Int.toNat_of_nonneg (by omega)]; ring
    rw [h1, h2, zpow_natCast, zpow_zero, mul_one]
    simp only [if_neg h, decide_eq_true_eq]
    rw [show ((a.sm : ℚ) * (2 : ℚ) ^ (a.e - b.e).toNat =
        ((a.sm * 2 ^ (a.e - b.e).toNat : ℤ) : ℚ)) from by push_cast; ring]
    exact_mod_cast Iff.rfl

example :
    (WhereProcessor.init "rating" ">" "4.7").toOption =
      some ⟨"rating", .gt, "4.7", true⟩ := by decide
example :
    (WhereProcessor.init "brand" "=" "apple").toOption =
      some ⟨"brand", .eq, "apple", false⟩ := by decide
example :
    (WhereProcessor.process ⟨"price", .gt, "60", true⟩
      [[("name", "a"), ("price", "100")], [("name", "b"), ("price", "50")]]).1 =
      [[("name", "a"), ("price", "100")]] := by decide
example :
    (WhereProcessor.process ⟨"brand", .eq, "apple", false⟩
      [[("name", "a"), ("brand", "apple")], [("name", "b"), ("brand", "samsung")]]).1 =
      [[("name", "a"), ("brand", "apple")]] := by decide
example :
    WhereProcessor.process ⟨"color", .eq, "red", false⟩
      [[("name", "a")]] = ([], ["Warning: key color not found"]) := by decide

theorem sInsert_perm {α : Type} (le : α → α → Bool) (x : α) (l : List α) :
    List.Perm (sInsert le x l) (x :: l) := by
  induction l with
  | nil => simp [sInsert]
  | cons y ys ih =>
    by_cases h : le x y = true
    · simp [sInsert, h]
    · simp only [sInsert, h, if_false, Bool.false_eq_true]
      exact (List.Perm.cons y ih).trans (List.Perm.swap x y ys)

theorem sSort_perm {α : Type} (le : α → α → Bool) (l : List α) :
    List.Perm (sSort le l) l := by
  induction l with
  | nil => simp [sSort]
  | cons x xs ih =>
    exact (sInsert_perm le x (sSort le xs)).trans (List.Perm.cons x ih)

theorem mem_sSort {α : Type} {le : α → α → Bool} {l : List α} {a : α} :
    a ∈ sSort le l ↔ a ∈ l :=
  (sSort_perm le l).mem_iff

theorem pairwise_sInsert {α : Type} (le : α → α → Bool) (x : α) (l : List α)
    (htot : ∀ y ∈ l, le x y = true ∨ le y x = true)
    (htrans : ∀ a ∈ x :: l, ∀ b ∈ x :: l, ∀ c ∈ x :: l,
      le a b = true → le b c = true → le a c = true)
    (hp : l.Pairwise (fun a b => le a b = true)) :
    (sInsert le x l).Pairwise (fun a b => le a b = true) := by
  induction l with
  | nil => simp [sInsert]
  | cons y ys ih =>
    rcases List.pairwise_cons.mp hp with ⟨hy, hys⟩
    by_cases h : le x y = true
    · simp only [sInsert, h, if_true]
      refine List.pairwise_cons.mpr ⟨?_, hp⟩
      intro b hb
      rcases List.mem_cons.mp hb with hb1 | hb1
      · subst hb1; exact h
      · exact htrans x (by simp) y (by simp) b (by simp [List.mem_cons, hb1])
          h (hy b hb1)
    · have hyx : le y x = true := by
        rcases htot y (by simp) with h1 | h1
        · exact absurd h1 h
        · exact h1
      simp only [sInsert, h, if_false, Bool.false_eq_true]
      refine List.pairwise_cons.mpr ⟨?_, ?_⟩
      · intro b hb
        have hb' := (sInsert_perm le x ys).mem_iff.mp hb
        rcases List.mem_cons.mp hb' with hb1 | hb1
        · subst hb1; exact hyx
        · exact hy b hb1
      · refine ih ?_ ?_ hys
        · intro z hz; exact htot z (by simp [List.mem_cons, hz])
        · intro a ha b hb c hc
          refine htrans a ?_ b ?_ c ?_
          · rcases List.mem_cons.mp ha with h1 | h1
            · simp [h1]
            · simp [List.mem_cons, h1]
          · rcases List.mem_cons.mp hb with h1 | h1
            · simp [h1]
            · simp [List.mem_cons, h1]
          · rcases List.mem_cons.mp hc with h1 | h1
            · simp [h1]
            · simp [List.mem_cons, h1]

theorem pairwise_sSort {α : Type} (le : α → α → Bool) (l : List α)
    (htot : ∀ a ∈ l, ∀ b ∈ l, le a b = true ∨ le b a = true)
    (htrans : ∀ a ∈ l, ∀ b ∈ l, ∀ c ∈ l,
      le a b = true → le b c = true → le a c = true) :
    (sSort le l).Pairwise (fun a b => le a b = true) := by
  induction l with
  | nil => simp [sSort]
  | cons x xs ih =>
    have hmem : ∀ z, z ∈ sSort le xs → z ∈ xs := fun z hz => mem_sSort.mp hz
    refine pairwise_sInsert le x (sSort le xs) ?_ ?_ ?_
    · intro y hy
      exact htot x (by simp) y (by simp [List.mem_cons, hmem y hy])
    · intro a ha b hb c hc
      have hm : ∀ z, z ∈ x :: sSort le xs → z ∈ x :: xs := by
        intro z hz
        rcases List.mem_cons.mp hz with h1 | h1
        · simp [h1]
        · simp [List.mem_cons, hmem z h1]
      exact htrans a (hm a ha) b (hm b hb) c (hm c hc)
    · refine ih ?_ ?_
      · intro a ha b hb; exact htot a (by simp [List.mem_cons, ha]) b (by simp [List.mem_cons, hb])
      · intro a ha b hb c hc
        exact htrans a (by simp [List.mem_cons, ha]) b (by simp [List.mem_cons, hb])
          c (by simp [List.mem_cons, hc])

theorem filter_sInsert_pos {α : Type} (le : α → α → Bool) (x : α) (l : List α)
    (p : α → Bool) (hx : p x = true)
    (hbefore : ∀ y ∈ l, p y = true → le x y = true) :
    (sInsert le x l).filter p = x :: l.filter p := by
  induction l with
  | nil => simp [sInsert, hx]
  | cons y ys ih =>
    by_cases h : le x y = true
    · simp [sInsert, h, List.filter, hx]
    · by_cases hpy : p y = true
      · exact absurd (hbefore y (by simp) hpy) h
      · simp only [sInsert, h, if_false, Bool.false_eq_true]
        rw [List.filter_cons, if_neg (by simp [hpy]),
          List.filter_cons, if_neg (by simp [hpy])]
        exact ih (fun z hz hp => hbefore z (by simp [List.mem_cons, hz]) hp)

theorem filter_sInsert_neg {α : Type} (le : α → α → Bool) (x : α) (l : List α)
    (p : α → Bool) (hx : p x = false) :
    (sInsert le x l).filter p = l.filter p := by
  induction l with
  | nil => simp [sInsert, hx]
  | cons y ys ih =>
    by_cases h : le x y = true
    · simp [sInsert, h, List.filter, hx]
    · simp only [sInsert, h, if_false, Bool.false_eq_true]
      rw [List.filter_cons, List.filter_cons]
      by_cases hpy : p y = true
      · simp [hpy, ih]
      · simp [hpy, ih]

/-- Stability of the model sort: the subsequence of elements satisfying `p` is
unchanged, provided `p`-elements are pairwise tied under `le`. Instantiated
with "has sort key `k`", this states that rows with equal keys keep their
original relative order. -/
theorem filter_sSort {α : Type} (le : α → α → Bool) (p : α → Bool) (l : List α)
    (hties : ∀ a ∈ l, ∀ b ∈ l, p a = true → p b = true → le a b = true) :
    (sSort le l).filter p = l.filter p := by
  induction l with
  | nil => simp [sSort]
  | cons x xs ih =>
    have ihx : (sSort le xs).filter p = xs.filter p :=
      ih (fun a ha b hb hpa hpb =>
        hties a (by simp [List.mem_cons, ha]) b (by simp [List.mem_cons, hb]) hpa hpb)
    by_cases hx : p x = true
    · rw [show sSort le (x :: xs) = sInsert le x (sSort le xs) from rfl,
        filter_sInsert_pos le x (sSort le xs) p hx ?_, List.filter_cons,
        if_pos (by simp [hx]), ihx]
      intro y hy hpy
      exact hties x (by simp) y (by simp [List.mem_cons, mem_sSort.mp hy]) hx hpy
    · rw [show sSort le (x :: xs) = sInsert le x (sSort le xs) from rfl,
        filter_sInsert_neg le x (sSort le xs) p (by simp at hx; simp [hx]),
        List.filter_cons, if_neg (by simp [hx]), ihx]

/-!
Order lemmas for `pfLe` away from NaN: reflexivity, totality, transitivity.
-/

theorem pfLe_refl (a : PyFloat) (ha : a ≠ .nan) : pfLe a a = true := by
  cases a with
  | fin d => simp [pfLe, pfEq, Dbl.beq_iff]
  | inf => simp [pfLe, pfEq]
  | ninf => simp [pfLe, pfEq]
  | nan => exact absurd rfl ha

theorem pfLe_total (a b : PyFloat) (ha : a ≠ .nan) (hb : b ≠ .nan) :
    pfLe a b = true ∨ pfLe b a = true := by
  cases a with
  | nan => exact absurd rfl ha
  | inf =>
    cases b with
    | nan => exact absurd rfl hb
    | inf => left; simp [pfLe, pfEq]
    | ninf => right; simp [pfLe, pfLt]
    | fin d => right; simp [pfLe, pfLt]
  | ninf =>
    cases b with
    | nan => exact absurd rfl hb
    | inf => left; simp [pfLe, pfLt]
    | ninf => left; simp [pfLe, pfEq]
    | fin d => left; simp [pfLe, pfLt]
  | fin c =>
    cases b with
    | nan => exact absurd rfl hb
    | inf => left; simp [pfLe, pfLt]
    | ninf => right; simp [pfLe, pfLt]
    | fin d =>
      rcases lt_trichotomy c.toRat d.toRat with h | h | h
      · left; simp [pfLe, pfLt, Dbl.blt_iff, h]
      · left; simp [pfLe, pfLt, pfEq, Dbl.beq_iff, h]
      · right; simp [pfLe, pfLt, Dbl.blt_iff, h]

theorem pfLe_trans (a b c : PyFloat) (ha : a ≠ .nan) (hb : b ≠ .nan)
    (hc : c ≠ .nan) (h1 : pfLe a b = true) (h2 : pfLe b c = true) :
    pfLe a c = true := by
  cases a with
  | nan => exact absurd rfl ha
  | inf =>
    cases b with
    | nan => exact absurd rfl hb
    | inf =>
      cases c with
      | nan => exact absurd rfl hc
      | inf => simp [pfLe, pfEq]
      | ninf => simp [pfLe, pfLt, pfEq] at h2
      | fin d => simp [pfLe, pfLt, pfEq] at h2
    | ninf => simp [pfLe, pfLt, pfEq] at h1
    | fin d => simp [pfLe, pfLt, pfEq] at h1
  | ninf =>
    cases c with
    | nan => exact absurd rfl hc
    | inf => simp [pfLe, pfLt]
    | ninf => simp [pfLe, pfEq]
    | fin d => simp [pfLe, pfLt]
  | fin u =>
    cases b with
    | nan => exact absurd rfl hb
    | inf =>
      cases c with
      | nan => exact absurd rfl hc
      | inf => simp [pfLe, pfLt]
      | ninf => simp [pfLe, pfLt, pfEq] at h2
      | fin d => simp [pfLe, pfLt, pfEq] at h2
    | ninf => simp [pfLe, pfLt, pfEq] at h1
    | fin v =>
      cases c with
      | nan => exact absurd rfl hc
      | inf => simp [pfLe, pfLt]
      | ninf => simp [pfLe, pfLt, pfEq] at h2
      | fin w =>
        simp only [pfLe, pfLt, pfEq, Bool.or_eq_true, Dbl.blt_iff,
          Dbl.beq_iff] at h1 h2 ⊢
        rcases h1 with h1 | h1 <;> rcases h2 with h2 | h2
        · exact Or.inl (lt_trans h1 h2)
        · exact Or.inl (h2 ▸ h1)
        · exact Or.inl (h1 ▸ h2)
        · exact Or.inr (h1.trans h2)

example :
    (OrderByProcessor.process ⟨"price", true⟩
      [[("name", "a"), ("price", "100")], [("name", "b"), ("price", "50")]]).1 =
      [[("name", "a"), ("price", "100")], [("name", "b"), ("price", "50")]] := by decide
example :
    (OrderByProcessor.process ⟨"price", false⟩
      [[("name", "a"), ("price", "100")], [("name", "b"), ("price", "50")]]).1 =
      [[("name", "b"), ("price", "50")], [("name", "a"), ("price", "100")]] := by decide
example :
    (OrderByProcessor.process ⟨"name", false⟩
      [[("name", "b")], [("name", "a")], [("name", "c")]]).1 =
      [[("name", "a")], [("name", "b")], [("name", "c")]] := by decide
example :
    (OrderByProcessor.process ⟨"price", false⟩
      [[("price", "abc")], [("price", "10")]]).1 =
      [[("price", "10")], [("price", "abc")]] := by decide
example :
    (OrderByProcessor.process ⟨"price", true⟩
      [[("price", "abc")], [("price", "10")]]).1 =
      [[("price", "10")], [("price", "abc")]] := by decide
example :
    (OrderByProcessor.process ⟨"c", false⟩
      [[("c", "abc")], [("c", "1e400")]]).1 =
      [[("c", "abc")], [("c", "1e400")]] := by decide
example :
    (OrderByProcessor.process ⟨"c", false⟩
      [[("c", "0.10000000000000000002")], [("c", "0.1")]]).1 =
      [[("c", "0.10000000000000000002")], [("c", "0.1")]] := by decide

example : pyStr (roundDec false 1199 0) = "1199.0" := by decide
example : pyStr (roundDec false 149 0) = "149.0" := by decide
example : pyStr (roundDec false 350 (-2)) = "3.5" := by decide
example : pyStr (roundDec false 1 (-1)) = "0.1" := by decide
example : pyStr (roundDec true 15 (-3)) = "-0.015" := by decide
example : pyStr (roundDec false 1 3) = "1000.0" := by decide
example : pyStr (roundDec false 0 (-2)) = "0.0" := by decide
example : pyStr (roundDec true 0 0) = "-0.0" := by decide
example : pyStr (roundDec false 1 (-5)) = "1e-05" := by decide
example : pyStr (roundDec false 1 16) = "1e+16" := by decide
example : pyStr (roundDec false 15 19) = "1.5e+20" := by decide
example : pyStr (roundDec false 1234567890123456789 0) = "1.2345678901234568e+18" := by decide
example : pyStr (roundDec false 5 (-3)) = "0.005" := by decide
example : pyStr (roundDec false 1 15) = "1000000000000000.0" := by decide
example : pyStr (roundDec false 1 (-4)) = "0.0001" := by decide
example : pyFormat2 (roundQ (mkRat 2397 3)) = "799.00" := by decide
example : pyFormat2 (roundQ (mkRat 449 100)) = "4.49" := by decide
example : pyFormat2 (roundQ (mkRat (-1) 8)) = "-0.12" := by decide
example : pyFormat2 (roundQ (mkRat 1 8)) = "0.12" := by decide
example : pyFormat2 (roundQ (mkRat 3 8)) = "0.38" := by decide
example : pyFormat2 (roundDec false 5 (-3)) = "0.01" := by decide
example : pyFormat2 (pyMean [roundDec false 5 (-3)]) = "0.01" := by decide
example : pyFormat2 (roundDec false 125 (-3)) = "0.12" := by decide

example :
    AggregateProcessor.process ⟨"price", .aavg⟩
      [[("price", "999")], [("price", "1199")], [("price", "199")]] =
      ([[("avg", "799.00")]], []) := by decide
example :
    AggregateProcessor.process ⟨"price", .amax⟩
      [[("price", "999")], [("price", "1199")]] =
      ([[("max", "1199.0")]], []) := by decide
example :
    AggregateProcessor.process ⟨"price", .amin⟩
      [[("price", "999")], [("price", "149")]] =
      ([[("min", "149.0")]], []) := by decide
example :
    AggregateProcessor.process ⟨"price", .amin⟩ [[("price", "0.00001")]] =
      ([[("min", "1e-05")]], []) := by decide
example :
    AggregateProcessor.process ⟨"price", .amax⟩ [[("price", "10000000000000000")]] =
      ([[("max", "1e+16")]], []) := by decide
example :
    AggregateProcessor.process ⟨"price", .aavg⟩ [[("price", "0.005")]] =
      ([[("avg", "0.01")]], []) := by decide
example :
    AggregateProcessor.process ⟨"rating", .aavg⟩
      [[("rating", "4.9")], [("rating", "4.8")], [("rating", "4.6")],
       [("rating", "4.7")], [("rating", "4.2")], [("rating", "4.4")],
       [("rating", "4.1")], [("rating", "4.6")], [("rating", "4.1")],
       [("rating", "4.5")]] =
      ([[("avg", "4.49")]], []) := by decide
example :
    AggregateProcessor.process ⟨"price", .aavg⟩
      [[("price", "999")], [("price", "1199")], [("price", "199")],
       [("price", "799")], [("price", "349")], [("price", "299")],
       [("price", "429")], [("price", "999")], [("price", "149")],
       [("price", "599")]] =
      ([[("avg", "602.00")]], []) := by decide
example :
    AggregateProcessor.process ⟨"price", .aavg⟩
      [[("price", "abc")]] =
      ([], ["Warning: no numeric data in column price to aggregate"]) := by decide
example :
    AggregateProcessor.process ⟨"color", .aavg⟩ [[("price", "1")]] =
      ([], ["Warning: key color for aggregation not found"]) := by decide
example :
    AggregateProcessor.process ⟨"price", .aavg⟩ [] =
      ([], ["Warning: no numeric data in column price to aggregate"]) := by decide

example : derivedTitleSpec "products_list.csv" = "Products List" := by decide
example :
    ConsoleViewer.show [[("name", "iphone"), ("price", "999")]] "products_list.csv" =
      .table none [⟨"name", false⟩, ⟨"price", true⟩] [["iphone", "999"]] := by decide
example : ConsoleViewer.show [] "products.csv" = .nothingMsg := by decide

example :
    (WhereFeature.create_processor "price<500").toOption =
      some ⟨"price", .lt, "500", true⟩ := by decide
example :
    (WhereFeature.create_processor "rating>4.7").toOption =
      some ⟨"rating", .gt, "4.7", true⟩ := by decide
example :
    WhereFeature.create_processor "noopshere" =
      .error (.valueError "Invalid --where clause: noopshere") := by decide
example :
    WhereFeature.create_processor "=x" =
      .error (.valueError "Invalid --where clause: =x") := by decide
example :
    (OrderByFeature.create_processor "rating=desc").toOption = some ⟨"rating", true⟩ := by decide
example :
    (OrderByFeature.create_processor "rating").toOption = some ⟨"rating", false⟩ := by decide
example :
    OrderByFeature.create_processor "rating=down" =
      .error (.valueError "Invalid sort direction down") := by decide
example :
    (AggregateFeature.create_processor "price=avg").toOption =
      some ⟨"price", .aavg⟩ := by decide
example :
    (AggregateFeature.create_processor "price= MAX ").toOption =
      some ⟨"price", .amax⟩ := by decide
example :
    AggregateFeature.create_processor "price" =
      .error (.valueError "Invalid aggregate format: price") := by decide
example :
    AggregateFeature.create_processor "price=avg=1" =
      .error (.valueError "Invalid aggregate format: price=avg=1") := by decide
example :
    mainModel (some "price<500") none none
      [[("name", "a"), ("price", "999")]] "f.csv" =
      .ok [.nothingMsg] [] := by decide

example : isPlainDecimalString "123" = true := by decide
example : isPlainDecimalString "-123.45" = true := by decide
example : isPlainDecimalString "+4.9" = true := by decide
example : isPlainDecimalString "" = false := by decide
example : isPlainDecimalString "12abc" = false := by decide
example : isPlainDecimalString "inf" = false := by decide
example : isPlainDecimalString "1e5" = false := by decide
example : isPlainDecimalString " 12 " = false := by decide

/-!
Helper lemmas for the C1 acceptance proof: a plain decimal string is accepted
by the model of Python's `float()`.
-/

theorem isWsChar_cases {c : Char} (h : isWsChar c = true) :
    c = ' ' ∨ c = '\t' ∨ c = '\n' ∨ c = '\r' ∨ c = '\x0b' ∨ c = '\x0c' := by
  simp only [isWsChar, Bool.or_eq_true, beq_iff_eq] at h
  tauto

theorem digit_not_ws {c : Char} (h : c.isDigit = true) : isWsChar c = false := by
  cases hw : isWsChar c
  · rfl
  · exfalso
    rcases isWsChar_cases hw with h1 | h1 | h1 | h1 | h1 | h1 <;>
      (subst h1; exact absurd h (by decide))

theorem dot_not_ws : isWsChar '.' = false := by decide

theorem dropWhile_eq_self_of_all {p : Char → Bool} {cs : List Char}
    (h : ∀ c ∈ cs, p c = false) : cs.dropWhile p = cs := by
  cases cs with
  | nil => rfl
  | cons c t => simp [List.dropWhile_cons, h c (by simp)]

theorem stripWs_eq_self {cs : List Char} (h : ∀ c ∈ cs, isWsChar c = false) :
    stripWs cs = cs := by
  unfold stripWs
  rw [dropWhile_eq_self_of_all h, dropWhile_eq_self_of_all
    (fun c hc => h c (List.mem_reverse.mp hc)), List.reverse_reverse]

theorem takeWhile_append_all {p : Char → Bool} (xs ys : List Char)
    (h : ∀ x ∈ xs, p x = true) :
    (xs ++ ys).takeWhile p = xs ++ ys.takeWhile p := by
  induction xs with
  | nil => simp
  | cons x t ih =>
    simp only [List.cons_append, List.takeWhile_cons, h x (by simp), if_true]
    rw [ih (fun c hc => h c (by simp [List.mem_cons, hc]))]

theorem dropWhile_append_all {p : Char → Bool} (xs ys : List Char)
    (h : ∀ x ∈ xs, p x = true) :
    (xs ++ ys).dropWhile p = ys.dropWhile p := by
  induction xs with
  | nil => simp
  | cons x t ih =>
    simp only [List.cons_append, List.dropWhile_cons, h x (by simp), if_true]
    exact ih (fun c hc => h c (by simp [List.mem_cons, hc]))

theorem takeWhile_all_eq_self {p : Char → Bool} (xs : List Char)
    (h : ∀ x ∈ xs, p x = true) : xs.takeWhile p = xs := by
  have := takeWhile_append_all xs [] h
  simpa using this

theorem dropWhile_all_eq_nil {p : Char → Bool} (xs : List Char)
    (h : ∀ x ∈ xs, p x = true) : xs.dropWhile p = [] := by
  have := dropWhile_append_all xs [] h
  simpa using this

theorem digit_isGroupChar {c : Char} (h : c.isDigit = true) :
    isGroupChar c = true := by
  simp [isGroupChar, h]

theorem digit_ne_underscore {c : Char} (h : c.isDigit = true) :
    (c == '_') = false := by
  cases hb : c == '_'
  · rfl
  · have : c = '_' := by simpa using hb
    subst this; exact absurd h (by decide)

theorem groupOkTail_all_digits (cs : List Char)
    (h : ∀ c ∈ cs, c.isDigit = true) : groupOkTail false cs = true := by
  induction cs with
  | nil => rfl
  | cons c t ih =>
    have hc := h c (by simp)
    simp only [groupOkTail, Bool.false_eq_true, if_false,
      if_neg (show ¬((c == '_') = true) from by simp [digit_ne_underscore hc])]
    simp [hc, ih (fun d hd => h d (by simp [List.mem_cons, hd]))]

theorem groupOk_all_digits (cs : List Char) (hne : cs ≠ [])
    (h : ∀ c ∈ cs, c.isDigit = true) : groupOk cs = true := by
  cases cs with
  | nil => exact absurd rfl hne
  | cons c t =>
    show (c.isDigit && groupOkTail false t) = true
    simp [h c (by simp),
      groupOkTail_all_digits t (fun d hd => h d (by simp [List.mem_cons, hd]))]

theorem plainBody_shape (body : List Char) (h : plainBody body = true) :
    (body ≠ [] ∧ (∀ c ∈ body, c.isDigit = true)) ∨
    (∃ ip t, body = ip ++ '.' :: t ∧ ip ≠ [] ∧ t ≠ [] ∧
      (∀ c ∈ ip, c.isDigit = true) ∧ (∀ c ∈ t, c.isDigit = true)) := by
  unfold plainBody at h
  have hsplit := List.takeWhile_append_dropWhile Char.isDigit body
  have hipd : ∀ c ∈ body.takeWhile Char.isDigit, c.isDigit = true :=
    fun c hc => List.mem_takeWhile_imp hc
  split at h
  · -- dropWhile = []: body is its nonempty digit prefix
    next hr =>
    left
    rw [hr, List.append_nil] at hsplit
    constructor
    · intro hemp
      subst hemp
      simp at h
    · intro c hc
      rw [← hsplit] at hc
      exact hipd c hc
  · -- dropWhile = '.' :: t
    next t hr =>
    right
    simp only [Bool.and_eq_true, Bool.not_eq_true', List.isEmpty_eq_false,
      List.all_eq_true] at h
    refine ⟨body.takeWhile Char.isDigit, t, ?_, ?_, ?_, hipd, h.2⟩
    · rw [← hr]
      exact hsplit.symm
    · simpa using h.1.1
    · simpa using h.1.2
  · simp at h

theorem parseMantissa_all_digits (body : List Char) (hne : body ≠ [])
    (h : ∀ c ∈ body, c.isDigit = true) :
    parseMantissa body = some (digitsVal body, 0, []) := by
  have hgrp : ∀ x ∈ body, isGroupChar x = true :=
    fun x hx => digit_isGroupChar (h x hx)
  unfold parseMantissa
  rw [show body.dropWhile isGroupChar = [] from dropWhile_all_eq_nil _ hgrp]
  simp [takeWhile_all_eq_self _ hgrp, groupOk_all_digits _ hne h]

theorem parseMantissa_with_dot (ip t : List Char) (hipne : ip ≠ [])
    (htne : t ≠ []) (hipd : ∀ c ∈ ip, c.isDigit = true)
    (htd : ∀ c ∈ t, c.isDigit = true) :
    parseMantissa (ip ++ '.' :: t) =
      some (digitsVal (ip ++ t), digitCount t, []) := by
  have hgrp : ∀ x ∈ ip, isGroupChar x = true :=
    fun x hx => digit_isGroupChar (hipd x hx)
  have htgrp : ∀ x ∈ t, isGroupChar x = true :=
    fun x hx => digit_isGroupChar (htd x hx)
  have hdotg : isGroupChar '.' = false := by decide
  have htake : (ip ++ '.' :: t).takeWhile isGroupChar = ip := by
    rw [takeWhile_append_all _ _ hgrp]
    simp [List.takeWhile_cons, hdotg]
  have hdrop : (ip ++ '.' :: t).dropWhile isGroupChar = '.' :: t := by
    rw [dropWhile_append_all _ _ hgrp]
    simp [List.dropWhile_cons, hdotg]
  unfold parseMantissa
  rw [hdrop]
  simp [htake, takeWhile_all_eq_self _ htgrp, dropWhile_all_eq_nil _ htgrp,
    groupOk_all_digits _ hipne hipd, groupOk_all_digits _ htne htd, hipne, htne]

theorem parseMantissa_of_plainBody (body : List Char)
    (h : plainBody body = true) :
    ∃ mv fc, parseMantissa body = some (mv, fc, []) := by
  rcases plainBody_shape body h with ⟨hne, hd⟩ | ⟨ip, t, hb, hipne, htne, hipd, htd⟩
  · exact ⟨_, _, parseMantissa_all_digits body hne hd⟩
  · subst hb
    exact ⟨_, _, parseMantissa_with_dot ip t hipne htne hipd htd⟩

theorem plainBody_not_ws (body : List Char) (h : plainBody body = true) :
    ∀ c ∈ body, isWsChar c = false := by
  intro c hc
  rcases plainBody_shape body h with ⟨_, hd⟩ | ⟨ip, t, hb, _, _, hipd, htd⟩
  · exact digit_not_ws (hd c hc)
  · subst hb
    rcases List.mem_append.mp hc with h1 | h1
    · exact digit_not_ws (hipd c h1)
    · rcases List.mem_cons.mp h1 with h2 | h2
      · subst h2; exact dot_not_ws
      · exact digit_not_ws (htd c h2)

theorem plain_no_ws (s : String) (h : isPlainDecimalString s = true) :
    ∀ c ∈ s.toList, isWsChar c = false := by
  unfold isPlainDecimalString at h
  cases hcs : s.toList with
  | nil => intro c hc; simp at hc
  | cons c0 t =>
    rw [hcs] at h
    intro c hc
    by_cases hm : (c0 == '-') = true
    · simp only [splitSign, hm, if_true] at h
      rcases List.mem_cons.mp hc with h1 | h1
      · have hc0 : c0 = '-' := by simpa using hm
        rw [h1, hc0]; decide
      · exact plainBody_not_ws t h c h1
    · by_cases hp : (c0 == '+') = true
      · simp only [splitSign, hm, hp, Bool.false_eq_true, if_false, if_true] at h
        rcases List.mem_cons.mp hc with h1 | h1
        · have hc0 : c0 = '+' := by simpa using hp
          rw [h1, hc0]; decide
        · exact plainBody_not_ws t h c h1
      · simp only [splitSign, hm, hp, Bool.false_eq_true, if_false] at h
        exact plainBody_not_ws (c0 :: t) h c hc

theorem digit_lt128 {c : Char} (h : c.isDigit = true) : c.toNat < 128 := by
  simp only [Char.isDigit, Bool.and_eq_true, decide_eq_true_eq] at h
  obtain ⟨h1, h2⟩ := h
  have h3 : c.val.toNat ≤ (57 : UInt32).toNat := h2
  have h4 : c.toNat = c.val.toNat := rfl
  have h5 : (57 : UInt32).toNat = 57 := rfl
  omega

theorem plainBody_ascii (body : List Char) (h : plainBody body = true) :
    ∀ c ∈ body, c.toNat < 128 := by
  intro c hc
  rcases plainBody_shape body h with ⟨_, hd⟩ | ⟨ip, t, hb, _, _, hipd, htd⟩
  · exact digit_lt128 (hd c hc)
  · subst hb
    rcases List.mem_append.mp hc with h1 | h1
    · exact digit_lt128 (hipd c h1)
    · rcases List.mem_cons.mp h1 with h2 | h2
      · subst h2; decide
      · exact digit_lt128 (htd c h2)

theorem plain_ascii (s : String) (h : isPlainDecimalString s = true) :
    ∀ c ∈ s.toList, c.toNat < 128 := by
  unfold isPlainDecimalString at h
  cases hcs : s.toList with
  | nil => intro c hc; simp at hc
  | cons c0 t =>
    rw [hcs] at h
    intro c hc
    by_cases hm : (c0 == '-') = true
    · simp only [splitSign, hm, if_true] at h
      rcases List.mem_cons.mp hc with h1 | h1
      · have hc0 : c0 = '-' := by simpa using hm
        rw [h1, hc0]; decide
      · exact plainBody_ascii t h c h1
    · by_cases hp : (c0 == '+') = true
      · simp only [splitSign, hm, hp, Bool.false_eq_true, if_false, if_true] at h
        rcases List.mem_cons.mp hc with h1 | h1
        · have hc0 : c0 = '+' := by simpa using hp
          rw [h1, hc0]; decide
        · exact plainBody_ascii t h c h1
      · simp only [splitSign, hm, hp, Bool.false_eq_true, if_false] at h
        exact plainBody_ascii (c0 :: t) h c hc

theorem transformDecimal_ascii {cs : List Char} (h : ∀ c ∈ cs, c.toNat < 128) :
    transformDecimal cs = cs := by
  unfold transformDecimal
  rw [if_pos]
  rw [List.all_eq_true]
  intro c hc
  exact decide_eq_true (h c hc)

theorem plainDecimal_parses (s : String) (h : isPlainDecimalString s = true) :
    is_numeric (some s) = true := by
  have hm := parseMantissa_of_plainBody (splitSign s.toList).2 h
  obtain ⟨mv, fc, hm⟩ := hm
  show (pyFloatOfString s).isSome = true
  unfold pyFloatOfString pyFloatOfChars
  rw [transformDecimal_ascii (plain_ascii s h),
    stripWs_eq_self (plain_no_ws s h), hm]
  rfl

/-- C1 (amended): `is_numeric` returns false for absent, empty and partially
numeric inputs such as "12abc", and true for every optionally signed,
optionally fractional plain decimal string; but its acceptance is exactly that
of Python's `float()`, which is strictly wider than the plain decimal grammar:
exponents, surrounding whitespace, underscore digit separators and the words
inf/infinity/nan (case-insensitive) are also accepted. -/
theorem c1_is_numeric_amended (s : String) (h : isPlainDecimalString s = true) :
    is_numeric (some s) = true ∧
    is_numeric none = false ∧
    is_numeric (some "") = false ∧
    is_numeric (some "12abc") = false ∧
    is_numeric (some "inf") = true ∧
    is_numeric (some "1e5") = true ∧
    is_numeric (some " 12 ") = true ∧
    is_numeric (some "1_000.5") = true ∧
    (∀ t : String, is_numeric (some t) = (pyFloatOfString t).isSome) :=
  ⟨plainDecimal_parses s h, by decide, by decide, by decide, by decide,
    by decide, by decide, by decide, fun t => rfl⟩

/-- C1 witness: the amended theorem applied to the plain decimal "-123.45". -/
theorem c1_witness :
    isPlainDecimalString "-123.45" = true ∧ is_numeric (some "-123.45") = true :=
  ⟨by decide, (c1_is_numeric_amended "-123.45" (by decide)).1⟩

/-- C1 counterexample: the claim's "numeric iff plain signed/fractional
decimal" fails in the only-if direction — "inf" contains no digit at all, is
not a decimal number, yet `is_numeric` accepts it because `float("inf")`
succeeds. -/
theorem c1_counterexample :
    is_numeric (some "inf") = true ∧
    isPlainDecimalString "inf" = false ∧
    ("inf".toList.all (fun c => !c.isDigit)) = true := by
  refine ⟨by decide, by decide, by decide⟩

/-- C9: filtering an empty dataset returns an empty dataset and emits no
warning, whatever the predicate — in particular also when the predicate's
column does not exist anywhere; the unknown-column warning can only be
produced when the input is non-empty. -/
theorem c9_empty_filter_no_warning (p : WhereProcessor) :
    p.process [] = ([], []) := rfl

theorem rowKeep_hasKey {p : WhereProcessor} {r : Row}
    (h : p.rowKeep r = true) : r.hasKey p.key = true := by
  unfold WhereProcessor.rowKeep at h
  cases hg : r.get p.key with
  | none => rw [hg] at h; simp at h
  | some v =>
    unfold Row.get at hg
    cases hf : r.find? (fun q => q.1 == p.key) with
    | none => rw [hf] at hg; simp at hg
    | some q =>
      have hpq := List.find?_some hf
      unfold Row.hasKey
      exact List.any_eq_true.mpr ⟨q, List.mem_of_find?_eq_some hf, hpq⟩

/-- C5: filtering is idempotent — applying `WhereProcessor.process` twice with
the same predicate returns the same dataset as applying it once. -/
theorem c5_filter_idempotent (p : WhereProcessor) (data : CSVData) :
    (p.process (p.process data).1).1 = (p.process data).1 := by
  cases data with
  | nil => rfl
  | cons r0 rest =>
    unfold WhereProcessor.process
    by_cases h : r0.hasKey p.key = true
    · simp only [h, if_true]
      cases hf : (r0 :: rest).filter p.rowKeep with
      | nil => simp
      | cons q0 qs =>
        have hq0 : p.rowKeep q0 = true := by
          have hmem : q0 ∈ (r0 :: rest).filter p.rowKeep := by
            rw [hf]; simp
          exact List.of_mem_filter hmem
        simp only [rowKeep_hasKey hq0, if_true]
        rw [← hf, List.filter_filter]
        have : (fun a => p.rowKeep a && p.rowKeep a) = p.rowKeep :=
          funext fun a => Bool.and_self _
        rw [this, hf]
    · simp only [Bool.not_eq_true] at h
      simp [h]

/-- C4: filtering a non-empty dataset on a column absent from its key set
emits the unknown-column warning and returns the empty dataset; running the
pipeline with that filter completes normally, renders the "nothing to
display" notice, carries the warning on the error stream, and exits with
code 0. -/
theorem c4_missing_column_warns (p : WhereProcessor) (r0 : Row)
    (rest : List Row) (src : String) (h : r0.hasKey p.key = false) :
    p.process (r0 :: rest) = ([], ["Warning: key " ++ p.key ++ " not found"]) ∧
    runOrReport (.ok [Proc.whereP p]) (r0 :: rest) src =
      .ok [RenderOutput.nothingMsg] ["Warning: key " ++ p.key ++ " not found"] ∧
    (runOrReport (.ok [Proc.whereP p]) (r0 :: rest) src).exitCode = 0 := by
  have hp : p.process (r0 :: rest) =
      ([], ["Warning: key " ++ p.key ++ " not found"]) := by
    unfold WhereProcessor.process
    simp [h]
  have hrun : runOrReport (.ok [Proc.whereP p]) (r0 :: rest) src =
      .ok [RenderOutput.nothingMsg] ["Warning: key " ++ p.key ++ " not found"] := by
    unfold runOrReport CSVApplication.run applyAll
    simp [List.foldl_cons, List.foldl_nil, stepProc, Proc.apply, hp,
      ConsoleViewer.show]
  exact ⟨hp, hrun, by rw [hrun]; rfl⟩

/-- C4 witness: filtering `[{name: x}]` on the absent column `brand`. -/
theorem c4_witness :
    Row.hasKey [("name", "x")] "brand" = false ∧
    WhereProcessor.process ⟨"brand", .eq, "apple", false⟩ [[("name", "x")]] =
      ([], ["Warning: key brand not found"]) :=
  ⟨by decide, (c4_missing_column_warns ⟨"brand", .eq, "apple", false⟩
    [("name", "x")] [] "products.csv" (by decide)).1⟩

/-- C7 (amended): `ConsoleViewer.show` never displays any title, for any
dataset shape and any source label — the code configures a title style but
never passes a title to the table, and ignores the source name. -/
theorem c7_never_titled (data : CSVData) (src : String) :
    titleOf (ConsoleViewer.show data src) = none := by
  cases data <;> rfl

/-- C7 counterexample: on a non-empty dataset that is not the Aggregate
Result shape, the rendered table has no title, although the derived title of
the claim would be "Products List". -/
theorem c7_counterexample :
    titleOf (ConsoleViewer.show [[("name", "iphone"), ("price", "999")]]
      "products_list.csv") = none ∧
    isAggregateResultShape [[("name", "iphone"), ("price", "999")]] = false ∧
    derivedTitleSpec "products_list.csv" = "Products List" := by
  refine ⟨by decide, by decide, by decide⟩

/-- C8: constructing a `WhereProcessor` with the unsupported operator "!"
does fail at construction time, but with a `TypeError` — the `raise
ValueError(...)` in the source calls `typing.List(...)` while formatting its
message, which itself raises — so the configuration layer's
`except ValueError` does not catch it and no `Error: ...` configuration
message is produced (the process dies with an unhandled traceback); the claim
that the configuration layer reports it as a fatal configuration error
matches the code's evident intent, not its behaviour. Filter-time safety
does hold: every successfully constructed processor carries one of the three
supported operators. -/
theorem c8_unsupported_op_bug :
    WhereProcessor.init "price" "!" "100" =
      .error (.typeError "Type List cannot be instantiated; use list() instead") ∧
    (∀ d : CSVData, ∀ s : String,
      runOrReport (Except.map (fun p => [Proc.whereP p])
        (WhereProcessor.init "price" "!" "100")) d s =
      .uncaught (.typeError "Type List cannot be instantiated; use list() instead")) ∧
    (∀ m : String, (AppOutcome.uncaught (.typeError m)).exitCode = 1) ∧
    (∀ k op v : String, ∀ q : WhereProcessor,
      WhereProcessor.init k op v = .ok q → q.op = .eq ∨ q.op = .gt ∨ q.op = .lt) := by
  refine ⟨by decide, fun d s => rfl, fun m => rfl, ?_⟩
  intro k op v q hq
  unfold WhereProcessor.init at hq
  by_cases h1 : op = "="
  · rw [if_pos h1] at hq
    left
    cases hq
    rfl
  · rw [if_neg h1] at hq
    by_cases h2 : op = ">"
    · rw [if_pos h2] at hq
      right; left
      cases hq
      rfl
    · rw [if_neg h2] at hq
      by_cases h3 : op = "<"
      · rw [if_pos h3] at hq
        right; right
        cases hq
        rfl
      · rw [if_neg h3] at hq
        cases hq

theorem toListAppend (s t : String) : (s ++ t).toList = s.toList ++ t.toList :=
  String.data_append s t

theorem splitOnChar_no_sep (sep : Char) (xs : List Char)
    (h : ∀ x ∈ xs, (x == sep) = false) : splitOnChar sep xs = [xs] := by
  induction xs with
  | nil => rfl
  | cons x t ih =>
    simp only [splitOnChar, h x (by simp), Bool.false_eq_true, if_false]
    rw [ih (fun z hz => h z (by simp [List.mem_cons, hz]))]

theorem splitOnChar_append_no_sep (sep : Char) (xs ys : List Char)
    (h : ∀ x ∈ xs, (x == sep) = false) :
    splitOnChar sep (xs ++ sep :: ys) = xs :: splitOnChar sep ys := by
  induction xs with
  | nil => simp [splitOnChar]
  | cons x t ih =>
    simp only [List.cons_append, splitOnChar, h x (by simp),
      Bool.false_eq_true, if_false, List.append_eq]
    rw [ih (fun z hz => h z (by simp [List.mem_cons, hz]))]

theorem aggregate_create_split (c suffix : String) (sfx : List Char)
    (hall : ∀ x ∈ c.toList, (x == '=') = false)
    (hsfx : suffix.toList = '=' :: sfx)
    (hsep : ∀ x ∈ sfx, (x == '=') = false) :
    AggregateFeature.create_processor (c ++ suffix) =
      AggregateProcessor.init (stripS c.toList)
        (String.mk ((stripWs sfx).map Char.toLower)) := by
  unfold AggregateFeature.create_processor
  rw [toListAppend, hsfx, splitOnChar_append_no_sep '=' c.toList sfx hall,
    splitOnChar_no_sep '=' sfx hsep]

/-- C10 counterexample: the universally quantified claim fails for column
names containing `=` — with column name "a=b", the argument "a=b=MAX" splits
into three parts and is rejected, instead of being accepted. -/
theorem c10_counterexample :
    AggregateFeature.create_processor "a=b=MAX" =
      .error (.valueError "Invalid aggregate format: a=b=MAX") := by decide

/-- C10 (amended): for every column name without an `=` character, the
aggregate argument is split on `=`, both parts are stripped of surrounding
whitespace and the function token lower-cased before validation, so "c=MAX"
and "c= avg " produce the same processors as "c=max" and "c=avg". -/
theorem c10_trim_lower (c : String)
    (h : c.toList.all (fun ch => !(ch == '=')) = true) :
    AggregateFeature.create_processor (c ++ "=MAX") =
      .ok ⟨stripS c.toList, .amax⟩ ∧
    AggregateFeature.create_processor (c ++ "=max") =
      .ok ⟨stripS c.toList, .amax⟩ ∧
    AggregateFeature.create_processor (c ++ "= avg ") =
      .ok ⟨stripS c.toList, .aavg⟩ ∧
    AggregateFeature.create_processor (c ++ "=avg") =
      .ok ⟨stripS c.toList, .aavg⟩ := by
  have hall : ∀ x ∈ c.toList, (x == '=') = false := by
    intro x hx
    have := List.all_eq_true.mp h x hx
    simpa using this
  refine ⟨?_, ?_, ?_, ?_⟩
  · rw [aggregate_create_split c "=MAX" "MAX".toList hall (by decide) (by decide),
      show String.mk ((stripWs "MAX".toList).map Char.toLower) = "max" from by decide]
    rfl
  · rw [aggregate_create_split c "=max" "max".toList hall (by decide) (by decide),
      show String.mk ((stripWs "max".toList).map Char.toLower) = "max" from by decide]
    rfl
  · rw [aggregate_create_split c "= avg " " avg ".toList hall (by decide) (by decide),
      show String.mk ((stripWs " avg ".toList).map Char.toLower) = "avg" from by decide]
    rfl
  · rw [aggregate_create_split c "=avg" "avg".toList hall (by decide) (by decide),
      show String.mk ((stripWs "avg".toList).map Char.toLower) = "avg" from by decide]
    rfl

/-- C10 witness: the amended theorem applied to the column name "price". -/
theorem c10_witness :
    ("price".toList.all (fun ch => !(ch == '=')) = true) ∧
    AggregateFeature.create_processor "price=MAX" = .ok ⟨"price", .amax⟩ := by
  refine ⟨by decide, ?_⟩
  have h := (c10_trim_lower "price" (by decide)).1
  simpa using h

theorem foldl_stepProc (ps : List Proc) (d : CSVData) (w : List String) :
    ps.foldl stepProc (d, w) = ((applyAll ps d).1, w ++ (applyAll ps d).2) := by
  induction ps generalizing d w with
  | nil => simp [applyAll]
  | cons p t ih =>
    have e1 : stepProc (d, w) p = ((p.apply d).1, w ++ (p.apply d).2) := rfl
    have e2 : applyAll (p :: t) d = t.foldl stepProc (stepProc (d, []) p) := rfl
    have e3 : stepProc (d, []) p = ((p.apply d).1, (p.apply d).2) := by
      show ((p.apply d).1, [] ++ (p.apply d).2) = ((p.apply d).1, (p.apply d).2)
      simp
    calc (p :: t).foldl stepProc (d, w)
        = t.foldl stepProc ((p.apply d).1, w ++ (p.apply d).2) := by
          rw [List.foldl_cons, e1]
      _ = ((applyAll t (p.apply d).1).1,
            (w ++ (p.apply d).2) ++ (applyAll t (p.apply d).1).2) :=
          ih ((p.apply d).1) (w ++ (p.apply d).2)
      _ = ((applyAll (p :: t) d).1, w ++ (applyAll (p :: t) d).2) := by
          rw [e2, e3, ih ((p.apply d).1) ((p.apply d).2)]
          simp

theorem applyAll_append (xs ys : List Proc) (data : CSVData) :
    applyAll (xs ++ ys) data =
      ((applyAll ys (applyAll xs data).1).1,
        (applyAll xs data).2 ++ (applyAll ys (applyAll xs data).1).2) := by
  unfold applyAll
  rw [List.foldl_append]
  have h1 : (xs.foldl stepProc (data, [])) =
      ((applyAll xs data).1, (applyAll xs data).2) := rfl
  rw [h1, show ((applyAll xs data).1, (applyAll xs data).2) =
    ((applyAll xs data).1, [] ++ (applyAll xs data).2) from by simp]
  rw [show ys.foldl stepProc ((applyAll xs data).1, [] ++ (applyAll xs data).2)
      = _ from foldl_stepProc ys (applyAll xs data).1 ([] ++ (applyAll xs data).2)]
  simp [applyAll]

/-- C6: when any combination of the three flags is configured and parses, the
processor list of `main` is always the where-processor, then the order-by
processor, then the aggregate processor, in that fixed order (argparse stores
flags by name, so the command-line order is immaterial); the pipeline feeds
each processor's output to the next — filter first, then sort, then
aggregation — and the final dataset is handed to the renderer exactly once. -/
theorem c6_fixed_pipeline_order (w o a : Option String) (lw lo la : List Proc)
    (data : CSVData) (src : String)
    (hw : whereItem w = .ok lw) (ho : orderItem o = .ok lo)
    (ha : aggItem a = .ok la) :
    buildProcessors w o a = .ok (lw ++ lo ++ la) ∧
    CSVApplication.run (lw ++ lo ++ la) data src =
      ([ConsoleViewer.show (applyAll la (applyAll lo (applyAll lw data).1).1).1 src],
        (applyAll lw data).2 ++ ((applyAll lo (applyAll lw data).1).2 ++
          (applyAll la (applyAll lo (applyAll lw data).1).1).2)) ∧
    (CSVApplication.run (lw ++ lo ++ la) data src).1.length = 1 := by
  have hb : buildProcessors w o a = .ok (lw ++ lo ++ la) := by
    unfold buildProcessors
    rw [hw, ho, ha]
    rfl
  have hr : CSVApplication.run (lw ++ lo ++ la) data src =
      ([ConsoleViewer.show (applyAll la (applyAll lo (applyAll lw data).1).1).1 src],
        (applyAll lw data).2 ++ ((applyAll lo (applyAll lw data).1).2 ++
          (applyAll la (applyAll lo (applyAll lw data).1).1).2)) := by
    unfold CSVApplication.run
    rw [applyAll_append, applyAll_append]
    simp
  exact ⟨hb, hr, by rw [hr]; rfl⟩

theorem sortKey_parsed (p : OrderByProcessor) (r : Row) (f : PyFloat)
    (h : parsedVal p.key r = some f) : p.sortKey true r = .num f := by
  unfold OrderByProcessor.sortKey
  rw [h]
  simp

theorem sortKey_unparsed (p : OrderByProcessor) (r : Row)
    (h : parsedVal p.key r = none) :
    p.sortKey true r = .num (if p.reverse then .ninf else .inf) := by
  unfold OrderByProcessor.sortKey
  rw [h]
  simp

theorem sortKey_not_nan (p : OrderByProcessor) (r : Row)
    (hnn : parsedVal p.key r ≠ some .nan) :
    ∃ f, p.sortKey true r = .num f ∧ f ≠ .nan := by
  cases hpv : parsedVal p.key r with
  | none =>
    refine ⟨_, sortKey_unparsed p r hpv, ?_⟩
    cases hrev : p.reverse <;> simp
  | some f =>
    refine ⟨f, sortKey_parsed p r f hpv, ?_⟩
    intro hf
    exact hnn (by rw [hpv, hf])

theorem rowLe_false (p : OrderByProcessor) (hrev : p.reverse = false)
    (a b : Row) :
    rowLe p true a b = skeyLe (p.sortKey true a) (p.sortKey true b) := by
  unfold rowLe
  rw [hrev]
  simp

theorem rowLe_true (p : OrderByProcessor) (hrev : p.reverse = true)
    (a b : Row) :
    rowLe p true a b = skeyLe (p.sortKey true b) (p.sortKey true a) := by
  unfold rowLe
  rw [hrev]
  simp

theorem rowLe_total (p : OrderByProcessor) (a b : Row)
    (ha : parsedVal p.key a ≠ some .nan) (hb : parsedVal p.key b ≠ some .nan) :
    rowLe p true a b = true ∨ rowLe p true b a = true := by
  obtain ⟨fa, hka, hna⟩ := sortKey_not_nan p a ha
  obtain ⟨fb, hkb, hnb⟩ := sortKey_not_nan p b hb
  unfold rowLe
  cases hrev : p.reverse
  · simp only [Bool.false_eq_true, if_false]
    rw [hka, hkb]
    exact pfLe_total fa fb hna hnb
  · simp only [if_true]
    rw [hka, hkb]
    exact pfLe_total fb fa hnb hna

theorem rowLe_trans (p : OrderByProcessor) (a b c : Row)
    (ha : parsedVal p.key a ≠ some .nan) (hb : parsedVal p.key b ≠ some .nan)
    (hc : parsedVal p.key c ≠ some .nan)
    (h1 : rowLe p true a b = true) (h2 : rowLe p true b c = true) :
    rowLe p true a c = true := by
  obtain ⟨fa, hka, hna⟩ := sortKey_not_nan p a ha
  obtain ⟨fb, hkb, hnb⟩ := sortKey_not_nan p b hb
  obtain ⟨fc, hkc, hnc⟩ := sortKey_not_nan p c hc
  unfold rowLe at h1 h2 ⊢
  cases hrev : p.reverse
  · rw [hrev] at h1 h2
    simp only [Bool.false_eq_true, if_false] at h1 h2 ⊢
    rw [hka, hkb] at h1
    rw [hkb, hkc] at h2
    rw [hka, hkc]
    exact pfLe_trans fa fb fc hna hnb hnc h1 h2
  · rw [hrev] at h1 h2
    simp only [if_true] at h1 h2 ⊢
    rw [hka, hkb] at h1
    rw [hkb, hkc] at h2
    rw [hka, hkc]
    exact pfLe_trans fc fb fa hnc hnb hna h2 h1

/-- C2 (amended): sorting a non-empty dataset whose column is judged numeric
(some value is numeric), whose first row has the key, and in which no value
parses to NaN, is a stable sort by parsed float keys: the output is a
permutation of the input; rows with equal sort keys keep their original
relative order; in ascending direction any two parseable rows appear in
non-decreasing order of their parsed values; and a row whose value fails to
parse never precedes a row whose value parses to a finite float, in either
direction. (The original claim placed unparseable rows after all parseable
rows; a parseable value of `inf` — itself accepted by `float()` — ties with
the `+inf` key assigned to unparseable rows under ascending order, so only
finitely-parseable rows are necessarily preceded.) -/
theorem c2_orderby_sort (p : OrderByProcessor) (r0 : Row) (rest : List Row)
    (o : CSVData)
    (hkey : r0.hasKey p.key = true)
    (hnum : (r0 :: rest).any
      (fun r => is_numeric (some ((r.get p.key).getD ""))) = true)
    (hnonan : ∀ r ∈ r0 :: rest, parsedVal p.key r ≠ some PyFloat.nan)
    (ho : o = (p.process (r0 :: rest)).1) :
    List.Perm o (r0 :: rest) ∧
    (∀ k : SKey, o.filter (fun r => p.sortKey true r == k) =
      (r0 :: rest).filter (fun r => p.sortKey true r == k)) ∧
    (p.reverse = false → ∀ i j : Fin o.length, i < j →
      ∀ f g, parsedVal p.key (o.get i) = some f →
        parsedVal p.key (o.get j) = some g → pfLe f g = true) ∧
    (∀ i j : Fin o.length, i < j →
      parsedVal p.key (o.get i) = none →
      ∀ d : Dbl, parsedVal p.key (o.get j) ≠ some (.fin d)) := by
  have hproc : (p.process (r0 :: rest)).1 = sSort (rowLe p true) (r0 :: rest) := by
    unfold OrderByProcessor.process
    simp [hkey, hnum]
  rw [hproc] at ho
  subst ho
  have hperm : List.Perm (sSort (rowLe p true) (r0 :: rest)) (r0 :: rest) :=
    sSort_perm (rowLe p true) (r0 :: rest)
  have hpw : (sSort (rowLe p true) (r0 :: rest)).Pairwise
      (fun a b => rowLe p true a b = true) := by
    refine pairwise_sSort (rowLe p true) (r0 :: rest) ?_ ?_
    · intro a haa b hbb
      exact rowLe_total p a b (hnonan a haa) (hnonan b hbb)
    · intro a haa b hbb c hcc h1 h2
      exact rowLe_trans p a b c (hnonan a haa) (hnonan b hbb) (hnonan c hcc) h1 h2
  have hmem : ∀ r ∈ sSort (rowLe p true) (r0 :: rest), r ∈ r0 :: rest :=
    fun r hr => hperm.mem_iff.mp hr
  refine ⟨hperm, ?_, ?_, ?_⟩
  · intro k
    refine filter_sSort (rowLe p true) (fun r => p.sortKey true r == k)
      (r0 :: rest) ?_
    intro a haa b hbb hpa hpb
    have hka : p.sortKey true a = k := by simpa using hpa
    have hkb : p.sortKey true b = k := by simpa using hpb
    obtain ⟨fa, hfa, hna⟩ := sortKey_not_nan p a (hnonan a haa)
    obtain ⟨fb, hfb, hnb⟩ := sortKey_not_nan p b (hnonan b hbb)
    have hfab : fa = fb := by
      have h1 : SKey.num fa = SKey.num fb := by
        rw [← hfa, ← hfb, hka, hkb]
      cases h1
      rfl
    unfold rowLe
    cases hrev : p.reverse
    · simp only [Bool.false_eq_true, if_false]
      rw [hfa, hfb, ← hfab]
      exact pfLe_refl fa hna
    · simp only [if_true]
      rw [hfa, hfb, hfab]
      exact pfLe_refl fb hnb
  · intro hrev i j hij f g hf hg
    have hrel := List.pairwise_iff_get.mp hpw i j hij
    rw [rowLe_false p hrev, sortKey_parsed p _ f hf,
      sortKey_parsed p _ g hg] at hrel
    exact hrel
  · intro i j hij hnone d hsome
    have hrel := List.pairwise_iff_get.mp hpw i j hij
    cases hrev : p.reverse
    · rw [rowLe_false p hrev, sortKey_unparsed p _ hnone,
        sortKey_parsed p _ (.fin d) hsome] at hrel
      rw [hrev] at hrel
      simp [skeyLe, pfLe, pfLt, pfEq] at hrel
    · rw [rowLe_true p hrev, sortKey_unparsed p _ hnone,
        sortKey_parsed p _ (.fin d) hsome] at hrel
      rw [hrev] at hrel
      simp [skeyLe, pfLe, pfLt, pfEq] at hrel

/-- C2 witness: ascending sort on a two-row numeric column. -/
theorem c2_witness :
    Row.hasKey [("price", "100")] "price" = true ∧
    List.Perm ((OrderByProcessor.process ⟨"price", false⟩
      [[("price", "100")], [("price", "50")]]).1)
      [[("price", "100")], [("price", "50")]] :=
  ⟨by decide, (c2_orderby_sort ⟨"price", false⟩ [("price", "100")]
    [[("price", "50")]] _ (by decide) (by decide) (by decide) rfl).1⟩

/-- C2 counterexample: with an unparseable value "abc" before a parseable
"inf", the column is judged numeric and both rows receive the key `+inf`
under ascending order, so the stable sort leaves the dataset unchanged and
the unparseable row precedes a parseable one, contradicting the claim that
unparseable rows land after all parseable rows. -/
theorem c2_counterexample :
    (OrderByProcessor.process ⟨"c", false⟩
      [[("c", "abc")], [("c", "inf")]]).1 =
      [[("c", "abc")], [("c", "inf")]] ∧
    parsedVal "c" [("c", "abc")] = none ∧
    parsedVal "c" [("c", "inf")] = some PyFloat.inf ∧
    ([[("c", "abc")], [("c", "inf")]] : CSVData).any
      (fun r => is_numeric (some ((r.get "c").getD ""))) = true := by
  refine ⟨by decide, by decide, by decide, by decide⟩

theorem pfLt_imp_le {a b : PyFloat} (h : pfLt a b = true) : pfLe a b = true := by
  simp [pfLe, h]

theorem pfEq_symm {a b : PyFloat} (h : pfEq a b = true) : pfEq b a = true := by
  cases a with
  | fin u =>
    cases b with
    | fin v =>
      simp only [pfEq, Dbl.beq_iff] at h ⊢
      exact h.symm
    | inf => simp [pfEq] at h
    | ninf => simp [pfEq] at h
    | nan => simp [pfEq] at h
  | inf => cases b <;> simp_all [pfEq]
  | ninf => cases b <;> simp_all [pfEq]
  | nan => simp [pfEq] at h

theorem pfNotLt_le {a b : PyFloat} (ha : a ≠ .nan) (hb : b ≠ .nan)
    (h : pfLt b a = false) : pfLe a b = true := by
  rcases pfLe_total a b ha hb with h1 | h1
  · exact h1
  · simp only [pfLe, Bool.or_eq_true] at h1 ⊢
    rcases h1 with h2 | h2
    · rw [h] at h2
      exact absurd h2 (by simp)
    · exact Or.inr (pfEq_symm h2)

theorem pyMinFold_mem (x : PyFloat) (xs : List PyFloat) :
    pyMinFold x xs ∈ x :: xs := by
  induction xs generalizing x with
  | nil => simp [pyMinFold]
  | cons y ys ih =>
    have hstep : pyMinFold x (y :: ys) = pyMinFold (if pfLt y x then y else x) ys := rfl
    rw [hstep]
    rcases List.mem_cons.mp (ih (if pfLt y x then y else x)) with h1 | h1
    · rw [h1]
      by_cases hc : pfLt y x = true
      · simp [hc]
      · simp only [Bool.not_eq_true] at hc
        simp [hc]
    · simp [List.mem_cons, h1]

theorem pyMaxFold_mem (x : PyFloat) (xs : List PyFloat) :
    pyMaxFold x xs ∈ x :: xs := by
  induction xs generalizing x with
  | nil => simp [pyMaxFold]
  | cons y ys ih =>
    have hstep : pyMaxFold x (y :: ys) = pyMaxFold (if pfLt x y then y else x) ys := rfl
    rw [hstep]
    rcases List.mem_cons.mp (ih (if pfLt x y then y else x)) with h1 | h1
    · rw [h1]
      by_cases hc : pfLt x y = true
      · simp [hc]
      · simp only [Bool.not_eq_true] at hc
        simp [hc]
    · simp [List.mem_cons, h1]

theorem pyMinFold_le (x : PyFloat) (xs : List PyFloat)
    (hnn : ∀ f ∈ x :: xs, f ≠ PyFloat.nan) :
    ∀ f ∈ x :: xs, pfLe (pyMinFold x xs) f = true := by
  induction xs generalizing x with
  | nil =>
    intro f hf
    rcases List.mem_cons.mp hf with h1 | h1
    · subst h1
      exact pfLe_refl f (hnn f (by simp))
    · simp at h1
  | cons y ys ih =>
    intro f hf
    have hx : x ≠ PyFloat.nan := hnn x (by simp)
    have hy : y ≠ PyFloat.nan := hnn y (by simp)
    have haccnn : (if pfLt y x then y else x) ≠ PyFloat.nan := by
      by_cases hc : pfLt y x = true
      · simpa [hc] using hy
      · simp only [Bool.not_eq_true] at hc
        simpa [hc] using hx
    have hsub : ∀ g ∈ (if pfLt y x then y else x) :: ys, g ≠ PyFloat.nan := by
      intro g hg
      rcases List.mem_cons.mp hg with h1 | h1
      · rw [h1]; exact haccnn
      · exact hnn g (by simp [List.mem_cons, h1])
    have hle := ih (if pfLt y x then y else x) hsub
    have hminnn : pyMinFold (if pfLt y x then y else x) ys ≠ PyFloat.nan :=
      hsub _ (pyMinFold_mem _ ys)
    have hminacc : pfLe (pyMinFold (if pfLt y x then y else x) ys)
        (if pfLt y x then y else x) = true := hle _ (by simp)
    have haccx : pfLe (if pfLt y x then y else x) x = true := by
      by_cases hc : pfLt y x = true
      · simp only [hc, if_true]
        exact pfLt_imp_le hc
      · simp only [Bool.not_eq_true] at hc
        simp only [hc, Bool.false_eq_true, if_false]
        exact pfLe_refl x hx
    have haccy : pfLe (if pfLt y x then y else x) y = true := by
      by_cases hc : pfLt y x = true
      · simp only [hc, if_true]
        exact pfLe_refl y hy
      · simp only [Bool.not_eq_true] at hc
        simp only [hc, Bool.false_eq_true, if_false]
        exact pfNotLt_le hx hy hc
    have hstep : pyMinFold x (y :: ys) = pyMinFold (if pfLt y x then y else x) ys := rfl
    rcases List.mem_cons.mp hf with h1 | h1
    · subst h1
      rw [hstep]
      exact pfLe_trans _ _ f hminnn haccnn hx hminacc haccx
    · rcases List.mem_cons.mp h1 with h2 | h2
      · subst h2
        rw [hstep]
        exact pfLe_trans _ _ f hminnn haccnn hy hminacc haccy
      · rw [hstep]
        exact hle f (by simp [List.mem_cons, h2])

theorem pyMaxFold_ge (x : PyFloat) (xs : List PyFloat)
    (hnn : ∀ f ∈ x :: xs, f ≠ PyFloat.nan) :
    ∀ f ∈ x :: xs, pfLe f (pyMaxFold x xs) = true := by
  induction xs generalizing x with
  | nil =>
    intro f hf
    rcases List.mem_cons.mp hf with h1 | h1
    · subst h1
      exact pfLe_refl f (hnn f (by simp))
    · simp at h1
  | cons y ys ih =>
    intro f hf
    have hx : x ≠ PyFloat.nan := hnn x (by simp)
    have hy : y ≠ PyFloat.nan := hnn y (by simp)
    have haccnn : (if pfLt x y then y else x) ≠ PyFloat.nan := by
      by_cases hc : pfLt x y = true
      · simpa [hc] using hy
      · simp only [Bool.not_eq_true] at hc
        simpa [hc] using hx
    have hsub : ∀ g ∈ (if pfLt x y then y else x) :: ys, g ≠ PyFloat.nan := by
      intro g hg
      rcases List.mem_cons.mp hg with h1 | h1
      · rw [h1]; exact haccnn
      · exact hnn g (by simp [List.mem_cons, h1])
    have hle := ih (if pfLt x y then y else x) hsub
    have hmaxnn : pyMaxFold (if pfLt x y then y else x) ys ≠ PyFloat.nan :=
      hsub _ (pyMaxFold_mem _ ys)
    have hmaxacc : pfLe (if pfLt x y then y else x)
        (pyMaxFold (if pfLt x y then y else x) ys) = true := hle _ (by simp)
    have hxacc : pfLe x (if pfLt x y then y else x) = true := by
      by_cases hc : pfLt x y = true
      · simp only [hc, if_true]
        exact pfLt_imp_le hc
      · simp only [Bool.not_eq_true] at hc
        simp only [hc, Bool.false_eq_true, if_false]
        exact pfLe_refl x hx
    have hyacc : pfLe y (if pfLt x y then y else x) = true := by
      by_cases hc : pfLt x y = true
      · simp only [hc, if_true]
        exact pfLe_refl y hy
      · simp only [Bool.not_eq_true] at hc
        simp only [hc, Bool.false_eq_true, if_false]
        exact pfNotLt_le hy hx hc
    have hstep : pyMaxFold x (y :: ys) = pyMaxFold (if pfLt x y then y else x) ys := rfl
    rcases List.mem_cons.mp hf with h1 | h1
    · subst h1
      rw [hstep]
      exact pfLe_trans f _ _ hx haccnn hmaxnn hxacc hmaxacc
    · rcases List.mem_cons.mp h1 with h2 | h2
      · subst h2
        rw [hstep]
        exact pfLe_trans f _ _ hy haccnn hmaxnn hyacc hmaxacc
      · rw [hstep]
        exact hle f (by simp [List.mem_cons, h2])

theorem foldlEmin_le (ds : List Dbl) (a : Int) :
    (ds.foldl (fun acc d => if d.e ≤ acc then d.e else acc) a) ≤ a ∧
    ∀ d ∈ ds, (ds.foldl (fun acc d => if d.e ≤ acc then d.e else acc) a) ≤ d.e := by
  induction ds generalizing a with
  | nil => simp
  | cons d t ih =>
    have hstep : (d :: t).foldl (fun acc d => if d.e ≤ acc then d.e else acc) a =
        t.foldl (fun acc d => if d.e ≤ acc then d.e else acc)
          (if d.e ≤ a then d.e else a) := rfl
    have hacc : (if d.e ≤ a then d.e else a) ≤ a ∧
        (if d.e ≤ a then d.e else a) ≤ d.e := by
      by_cases hc : d.e ≤ a
      · simp [hc]
      · simp only [hc, if_false]
        omega
    obtain ⟨ih1, ih2⟩ := ih (if d.e ≤ a then d.e else a)
    constructor
    · rw [hstep]
      exact le_trans ih1 hacc.1
    · intro x hx
      rcases List.mem_cons.mp hx with h1 | h1
      · subst h1
        rw [hstep]
        exact le_trans ih1 hacc.2
      · rw [hstep]
        exact ih2 x h1

theorem eminOf_le (ds : List Dbl) :
    eminOf ds ≤ 0 ∧ ∀ d ∈ ds, eminOf ds ≤ d.e :=
  foldlEmin_le ds 0

theorem mantSum_eq_sum (ds : List Dbl) (E : Int) :
    mantSum ds E = (ds.map (fun d => d.sm * 2 ^ (d.e - E).toNat)).sum := by
  unfold mantSum
  suffices h : ∀ a : Int, ds.foldl (fun acc d => acc + d.sm * 2 ^ (d.e - E).toNat) a
      = a + (ds.map (fun d => d.sm * 2 ^ (d.e - E).toNat)).sum by
    rw [h 0]
    simp
  induction ds with
  | nil => intro a; simp
  | cons d t ih =>
    intro a
    rw [List.foldl_cons, ih, List.map_cons, List.sum_cons]
    ring

theorem intListSum_cast (l : List Int) :
    ((l.sum : Int) : ℚ) = (l.map (fun z : Int => (z : ℚ))).sum := by
  induction l with
  | nil => simp
  | cons x t ih => simp [List.sum_cons, ih]

theorem decSum_mul_pow (ds : List Dbl) (E : Int) (h : ∀ d ∈ ds, E ≤ d.e) :
    ((ds.map (fun d => ((d.sm * 2 ^ (d.e - E).toNat : Int) : ℚ))).sum) * (2 : ℚ) ^ E
      = (ds.map Dbl.toRat).sum := by
  induction ds with
  | nil => simp
  | cons d t ih =>
    simp only [List.map_cons, List.sum_cons, add_mul]
    rw [ih (fun x hx => h x (by simp [List.mem_cons, hx]))]
    congr 1
    have he : (((d.e - E).toNat : Int)) = d.e - E :=
      Int.toNat_of_nonneg (by have := h d (by simp); omega)
    rw [Dbl.toRat]
    push_cast
    rw [show ((2 : ℚ) ^ ((d.e - E).toNat) : ℚ) =
        (2 : ℚ) ^ (((d.e - E).toNat : Int)) from (zpow_natCast _ _).symm, he,
      mul_assoc, ← zpow_add₀ (by norm_num : (2 : ℚ) ≠ 0), sub_add_cancel]

theorem meanQ_eq (ds : List Dbl) :
    meanQ ds = ((ds.map Dbl.toRat).sum) / ((ds.length : ℚ)) := by
  unfold meanQ
  obtain ⟨hE0, hEle⟩ := eminOf_le ds
  have hsum : ((mantSum ds (eminOf ds) : Int) : ℚ) * (2 : ℚ) ^ (eminOf ds)
      = (ds.map Dbl.toRat).sum := by
    have hd := decSum_mul_pow ds (eminOf ds) hEle
    rw [mantSum_eq_sum, intListSum_cast, List.map_map]
    rw [show ((fun z : Int => (z : ℚ)) ∘
        fun d : Dbl => d.sm * 2 ^ (d.e - eminOf ds).toNat)
        = (fun d : Dbl => ((d.sm * 2 ^ (d.e - eminOf ds).toNat : Int) : ℚ))
      from rfl]
    exact hd
  by_cases hc : 0 ≤ eminOf ds
  · rw [if_pos hc, Rat.mkRat_eq_div]
    have hEz : eminOf ds = 0 := le_antisymm hE0 hc
    rw [hEz] at hsum ⊢
    simp only [zpow_zero, mul_one] at hsum
    rw [← hsum]
    push_cast
    ring
  · rw [if_neg hc, Rat.mkRat_eq_div]
    have hk : ((((-(eminOf ds)).toNat) : Int)) = -(eminOf ds) :=
      Int.toNat_of_nonneg (by omega)
    have h10 : ((2 : ℚ) ^ ((-(eminOf ds)).toNat)) ≠ 0 := by positivity
    have hlen : ((ds.length * 2 ^ (-(eminOf ds)).toNat : ℕ) : ℚ) =
        (ds.length : ℚ) * (2 : ℚ) ^ ((-(eminOf ds)).toNat) := by
      push_cast
      ring
    rw [hlen]
    rw [← hsum]
    have hzp : (2 : ℚ) ^ (eminOf ds) =
        ((2 : ℚ) ^ ((-(eminOf ds)).toNat))⁻¹ := by
      rw [show (2 : ℚ) ^ (eminOf ds) = (2 : ℚ) ^ (-(((-(eminOf ds)).toNat : Int)))
          from by rw [hk]; ring_nf,
        zpow_neg, zpow_natCast]
    rw [hzp]
    field_simp
    ring

theorem pyMean_allFin (vals : List PyFloat)
    (hfin : vals.all (fun f => (finPart f).isSome) = true) :
    pyMean vals = roundQ (meanQ (vals.filterMap finPart)) := by
  have hshape : ∀ v ∈ vals, ∃ d, v = PyFloat.fin d := by
    intro v hv
    have := List.all_eq_true.mp hfin v hv
    cases v with
    | fin d => exact ⟨d, rfl⟩
    | inf => simp [finPart] at this
    | ninf => simp [finPart] at this
    | nan => simp [finPart] at this
  have h1 : vals.any (fun v => v == PyFloat.nan) = false := by
    rw [List.any_eq_false]
    intro v hv
    obtain ⟨d, rfl⟩ := hshape v hv
    simp
  have h2 : vals.any (fun v => v == PyFloat.inf) = false := by
    rw [List.any_eq_false]
    intro v hv
    obtain ⟨d, rfl⟩ := hshape v hv
    simp
  have h3 : vals.any (fun v => v == PyFloat.ninf) = false := by
    rw [List.any_eq_false]
    intro v hv
    obtain ⟨d, rfl⟩ := hshape v hv
    simp
  unfold pyMean
  simp [h1, h2, h3]

/-- C3: on a non-empty dataset whose first row has the target column and in
which at least one value parses (all parsed values finite — the inf/nan
specials are out of the claim's scope), `AggregateProcessor.process` returns
exactly one row with exactly one key equal to the function name; the value is
`str` of a parsed float that is a member of the collected values and is their
minimum (resp. maximum) for `min` (resp. `max`), and for `avg` the exact
arithmetic mean of the parsed values, rounded to the nearest binary64 float
and formatted to exactly two decimal places; in
particular avg over ["999","1199","199"] yields {"avg": "799.00"} and max
over ["999","1199"] yields {"max": "1199.0"}. -/
theorem c3_aggregate_shape (p : AggregateProcessor) (r0 : Row)
    (rest : List Row) (vals : List PyFloat)
    (hkey : r0.hasKey p.key = true)
    (hvals : (r0 :: rest).filterMap (parsedVal p.key) = vals)
    (hne : vals ≠ [])
    (hfin : vals.all (fun f => (finPart f).isSome) = true) :
    (∃ s, p.process (r0 :: rest) = ([[(p.func.str, s)]], [])) ∧
    (p.func = .amin → ∃ d, PyFloat.fin d ∈ vals ∧
      (∀ f ∈ vals, pfLe (.fin d) f = true) ∧
      p.process (r0 :: rest) = ([[("min", pyStrDbl d)]], [])) ∧
    (p.func = .amax → ∃ d, PyFloat.fin d ∈ vals ∧
      (∀ f ∈ vals, pfLe f (.fin d) = true) ∧
      p.process (r0 :: rest) = ([[("max", pyStrDbl d)]], [])) ∧
    (p.func = .aavg →
      p.process (r0 :: rest) =
        ([[("avg", pyFormat2 (roundQ (((vals.filterMap finPart).map Dbl.toRat).sum /
          (((vals.filterMap finPart).length : ℚ)))))]], [])) ∧
    AggregateProcessor.process ⟨"price", .aavg⟩
      [[("price", "999")], [("price", "1199")], [("price", "199")]] =
      ([[("avg", "799.00")]], []) ∧
    AggregateProcessor.process ⟨"price", .amax⟩
      [[("price", "999")], [("price", "1199")]] =
      ([[("max", "1199.0")]], []) := by
  obtain ⟨v, vs, rfl⟩ : ∃ v vs, vals = v :: vs := by
    cases vals with
    | nil => exact absurd rfl hne
    | cons v vs => exact ⟨v, vs, rfl⟩
  have hnn : ∀ f ∈ v :: vs, f ≠ PyFloat.nan := by
    intro f hf hfn
    have := List.all_eq_true.mp hfin f hf
    rw [hfn] at this
    simp [finPart] at this
  have hproc : p.process (r0 :: rest) =
      ([[(p.func.str,
        match p.func with
        | .amin => pyStr (pyMinFold v vs)
        | .amax => pyStr (pyMaxFold v vs)
        | .aavg => pyFormat2 (pyMean (v :: vs)))]], []) := by
    unfold AggregateProcessor.process
    rw [hvals]
    simp [hkey]
  refine ⟨⟨_, hproc⟩, ?_, ?_, ?_, by decide, by decide⟩
  · intro hmin
    obtain ⟨d, hd⟩ : ∃ d, pyMinFold v vs = PyFloat.fin d := by
      have hm := pyMinFold_mem v vs
      have := List.all_eq_true.mp hfin _ hm
      cases he : pyMinFold v vs with
      | fin d => exact ⟨d, rfl⟩
      | inf => rw [he] at this; simp [finPart] at this
      | ninf => rw [he] at this; simp [finPart] at this
      | nan => rw [he] at this; simp [finPart] at this
    refine ⟨d, hd ▸ pyMinFold_mem v vs, ?_, ?_⟩
    · intro f hf
      have := pyMinFold_le v vs hnn f hf
      rw [hd] at this
      exact this
    · rw [hproc, hmin, hd]
      rfl
  · intro hmax
    obtain ⟨d, hd⟩ : ∃ d, pyMaxFold v vs = PyFloat.fin d := by
      have hm := pyMaxFold_mem v vs
      have := List.all_eq_true.mp hfin _ hm
      cases he : pyMaxFold v vs with
      | fin d => exact ⟨d, rfl⟩
      | inf => rw [he] at this; simp [finPart] at this
      | ninf => rw [he] at this; simp [finPart] at this
      | nan => rw [he] at this; simp [finPart] at this
    refine ⟨d, hd ▸ pyMaxFold_mem v vs, ?_, ?_⟩
    · intro f hf
      have := pyMaxFold_ge v vs hnn f hf
      rw [hd] at this
      exact this
    · rw [hproc, hmax, hd]
      rfl
  · intro havg
    rw [hproc, havg]
    rw [show (match AggFunc.aavg with
      | .amin => pyStr (pyMinFold v vs)
      | .amax => pyStr (pyMaxFold v vs)
      | .aavg => pyFormat2 (pyMean (v :: vs))) = pyFormat2 (pyMean (v :: vs))
      from rfl]
    rw [pyMean_allFin (v :: vs) hfin, meanQ_eq]
    rfl

/-- C3 witness: the scenario of the claim, avg over ["999","1199","199"]. -/
theorem c3_witness :
    (Row.hasKey [("price", "999")] "price" = true ∧
      ([[("price", "999")], [("price", "1199")], [("price", "199")]] :
        CSVData).filterMap (parsedVal "price") =
        [.fin ⟨false, 8787296929185792, -43⟩, .fin ⟨false, 5273257766813696, -42⟩,
          .fin ⟨false, 7001690045677568, -45⟩]) ∧
    ∃ s, AggregateProcessor.process ⟨"price", .aavg⟩
      [[("price", "999")], [("price", "1199")], [("price", "199")]] =
      ([[("avg", s)]], []) :=
  ⟨⟨by decide, by decide⟩,
    (c3_aggregate_shape ⟨"price", .aavg⟩ [("price", "999")]
      [[("price", "1199")], [("price", "199")]]
      [.fin ⟨false, 8787296929185792, -43⟩, .fin ⟨false, 5273257766813696, -42⟩,
        .fin ⟨false, 7001690045677568, -45⟩]
      (by decide) (by decide) (by decide) (by decide)).1⟩

/-- C6 witness: a run configured with all three flags. -/
theorem c6_witness :
    whereItem (some "price>100") =
      .ok [Proc.whereP ⟨"price", .gt, "100", true⟩] ∧
    orderItem (some "rating=desc") = .ok [Proc.orderP ⟨"rating", true⟩] ∧
    aggItem (some "price=avg") = .ok [Proc.aggP ⟨"price", .aavg⟩] ∧
    buildProcessors (some "price>100") (some "rating=desc") (some "price=avg") =
      .ok [Proc.whereP ⟨"price", .gt, "100", true⟩, Proc.orderP ⟨"rating", true⟩,
        Proc.aggP ⟨"price", .aavg⟩] := by
  refine ⟨by decide, by decide, by decide, ?_⟩
  have h := (c6_fixed_pipeline_order (some "price>100") (some "rating=desc")
    (some "price=avg") [Proc.whereP ⟨"price", .gt, "100", true⟩]
    [Proc.orderP ⟨"rating", true⟩] [Proc.aggP ⟨"price", .aavg⟩] [] "f.csv"
    (by decide) (by decide) (by decide)).1
  simpa using h

end CSVPipe
